import Mathlib

/-!
Formal model of the TrainerRoad-to-Zwift workout converter implemented in
the content script `zwo.js`: input validation, slope-change interval
segmentation, ramp-to-steady conversion, over-under detection and the
serializer `generateZwiftWorkout`, together with theorems about the
conversion pipeline.

Modelling conventions:
* JavaScript numbers are modelled as exact rationals (`ℚ`);
  `Math.round` is `jsRound` (floor of `x + 1/2`, JavaScript's
  round-half-up convention).
* Array reads out of range (`undefined` in JavaScript) return a default
  record; every such read in the source sits behind a guard that makes
  the value irrelevant (comparisons against `undefined` are false, and
  the default values are chosen so the guards behave the same way here).
* The DOM-based HTML-to-text helper of the serializer is not expressible
  in a shallow embedding; it is abstracted as a function parameter of
  `generateZwiftWorkout`.
-/

/-- The interval types of `zwo.js` (`IntervalType` enum): `SteadyState`,
`Ramp` and `IntervalsT` (over-under). -/
inductive IntervalType where
  | STEADY_STATE
  | RAMP
  | OVER_UNDER
  deriving DecidableEq, Repr

open IntervalType

/-- An interval record.  Simple intervals produced by `getSimpleIntervals`
use `type`, `duration`, `startPower`, `endPower`; over-under intervals
produced by `createOverUnder` use `type`, `rep` (the source's `repeat`
field), `onDuration`, `offDuration`, `onPower`, `offPower`.  The unused
fields keep their defaults, mirroring absent properties of the
JavaScript objects. -/
structure ZwiftInterval where
  type : IntervalType
  duration : ℚ := 0
  startPower : ℚ := 0
  endPower : ℚ := 0
  rep : ℕ := 0
  onDuration : ℚ := 0
  offDuration : ℚ := 0
  onPower : ℚ := 0
  offPower : ℚ := 0
  deriving DecidableEq, Repr

/-- Default used for out-of-range interval reads.  Its `type` is `RAMP`
so that the only type test applied to a possibly missing element
(`intervals[index]?.type === STEADY_STATE`) is false, exactly as the
`undefined` comparison is false in JavaScript. -/
def undefInterval : ZwiftInterval := { type := RAMP }

/-- `intervals[i]`, total. -/
def nthI (A : List ZwiftInterval) (i : ℕ) : ZwiftInterval := (A[i]?).getD undefInterval

/-- The conversion options consumed by `getZwiftIntervals`
(`rampConversion` one of "none"/"internal"/"all", `ouConversion` one of
"strict"/"loose"/"none"). -/
structure Options where
  rampConversion : String
  ouConversion : String
  deriving DecidableEq, Repr

/-- A raw workout data point (`Seconds` is in milliseconds in the raw
TrainerRoad payload, `FtpPercent` in percent of FTP). -/
structure DataPoint where
  Seconds : ℚ
  FtpPercent : ℚ
  deriving DecidableEq, Repr

/-- `data[i]`, total. -/
def nthD (data : List DataPoint) (i : ℕ) : DataPoint := (data[i]?).getD ⟨0, 0⟩

/-- JavaScript's `Math.round`: round half toward positive infinity. -/
def jsRound (q : ℚ) : ℚ := ((⌊q + 1/2⌋ : ℤ) : ℚ)

/-- `q % 1000 === 0` for a JavaScript number `q`: `q` is an integral
multiple of 1000 (the remainder of a non-integral or misaligned value is
nonzero). -/
def msAligned (q : ℚ) : Bool := (q / 1000).den == 1

/-- The per-point rejection test of `validWorkoutData` (zwo.js lines
47-51).  The `typeof` checks of the source are subsumed by the types of
the embedding. -/
def invalidDataPoint (data : List DataPoint) (index : ℕ) : Bool :=
  decide ((nthD data index).Seconds < 0) ||
  decide ((nthD data index).FtpPercent < 0) ||
  !msAligned (nthD data index).Seconds ||
  (decide (0 < index) &&
    decide ((nthD data index).Seconds ≤ (nthD data (index - 1)).Seconds))

/-- `validWorkoutData` (zwo.js lines 38-56): at least two data points and
no invalid data point.  The `Array.isArray` test is subsumed by the list
type. -/
def validWorkoutData (data : List DataPoint) : Bool :=
  if data.length < 2 then false
  else !(List.range data.length).any (invalidDataPoint data)

/-- The forward slope annotation computed by the normalizing `map` of
`getSimpleIntervals` (zwo.js lines 100-102): `ΔFtpPercent` over
`ΔSeconds/1000`, in percent-FTP per second, from point `index` to point
`index + 1` of the raw (millisecond) data. -/
def nslope (data : List DataPoint) (index : ℕ) : ℚ :=
  let deltaPower := (nthD data (index + 1)).FtpPercent - (nthD data index).FtpPercent
  let deltaTime := (nthD data (index + 1)).Seconds - (nthD data index).Seconds
  deltaPower / (deltaTime / 1000)

/-- `slopeChange` (zwo.js lines 73-76).  The guard `index + 1 <
data.length` states that `data[index].slope` exists: the last data point
carries no `slope` property, so in JavaScript the comparison evaluates
`Math.abs(NaN) >= epsilon`, which is false; for the same reason the test
is false beyond the end of the data. -/
def slopeChange (data : List DataPoint) (index : ℕ) : Bool :=
  if index + 1 < data.length then
    decide (|nslope data index - nslope data (index - 1)| ≥ 1/1000)
  else false

/-- `doRampConversion` (zwo.js lines 85-89); `index` is the loop index of
the segmentation loop, i.e. the index of the data point that closes the
interval. -/
def doRampConversion (options : Options) (dataLength index : ℕ) : Bool :=
  options.rampConversion == "all" ||
    (options.rampConversion == "internal" &&
      (decide (0 < index) && decide (index < dataLength - 1)))

/-- The interval-closing condition of the segmentation loop (zwo.js lines
144-145): the terminal index always closes, and an interior index closes
when there is a slope change there but not at the next index. -/
def closesAt (data : List DataPoint) (index : ℕ) : Bool :=
  index == data.length - 1 ||
    (slopeChange data index && !slopeChange data (index + 1))

/-- The interval construction of the segmentation loop body (zwo.js lines
146-157): duration from the normalized (seconds) timestamps, start power
read at the interval's first sample, end power inferred from the slope at
the first sample, optional ramp conversion to the midpoint, and
classification by power equality. -/
def closeInterval (data : List DataPoint) (options : Options)
    (start index : ℕ) : ZwiftInterval :=
  let duration := (nthD data index).Seconds / 1000 -
    (nthD data start).Seconds / 1000
  let startPower := (nthD data start).FtpPercent
  let endPower := jsRound (startPower + duration * nslope data start)
  let p : ℚ × ℚ :=
    if doRampConversion options data.length index then
      ((startPower + endPower) / 2, (startPower + endPower) / 2)
    else (startPower, endPower)
  { type := if p.1 = p.2 then STEADY_STATE else RAMP,
    duration := duration, startPower := p.1, endPower := p.2 }

/-- The segmentation loop of `getSimpleIntervals` (zwo.js lines 142-160),
as a recursion over the loop index.  The first argument is fuel making
the recursion structural; the loop runs at most `data.length - 1` times,
so the fuel `data.length` supplied by `getSimpleIntervals` never runs
out. -/
def segLoop (data : List DataPoint) (options : Options) :
    ℕ → ℕ → ℕ → List ZwiftInterval
  | 0, _, _ => []
  | Nat.succ fuel, index, start =>
    if index < data.length then
      if closesAt data index then
        closeInterval data options start index ::
          segLoop data options fuel (index + 1) index
      else segLoop data options fuel (index + 1) start
    else []

/-- `getSimpleIntervals` (zwo.js lines 67-162). -/
def getSimpleIntervals (data : List DataPoint) (options : Options) :
    List ZwiftInterval :=
  segLoop data options data.length 1 0

/-- `Array.prototype.splice(i, 0, x)`: insert `x` at position `i`. -/
def spliceIns (A : List ZwiftInterval) (i : ℕ) (x : ZwiftInterval) :
    List ZwiftInterval :=
  A.take i ++ x :: A.drop i

/-- `Array.prototype.splice(i, len, x)`: replace `len` elements starting
at position `i` by the single element `x`. -/
def spliceRepl (A : List ZwiftInterval) (i len : ℕ) (x : ZwiftInterval) :
    List ZwiftInterval :=
  A.take i ++ x :: A.drop (i + len)

/-- `intervals[i].duration -= δ`. -/
def updDur (A : List ZwiftInterval) (i : ℕ) (δ : ℚ) : List ZwiftInterval :=
  A.set i { nthI A i with duration := (nthI A i).duration - δ }

/-- `createOverUnder` (zwo.js lines 179-195).  The source's summing loop
(`for index = start; index < end; index += 2`) executes exactly
`⌊(end - start + 1) / 2⌋` times whatever the parity of the range, which
is the `repeat` count; the sums are written here over that count. -/
def createOverUnder (A : List ZwiftInterval) (start stop : ℕ) : ZwiftInterval :=
  let rep := (stop - start + 1) / 2
  let onPowerSum :=
    ((List.range rep).map (fun k => (nthI A (start + 2 * k)).startPower)).sum
  let offPowerSum :=
    ((List.range rep).map (fun k => (nthI A (start + 2 * k + 1)).startPower)).sum
  { type := OVER_UNDER, rep := rep,
    onDuration := (nthI A start).duration,
    offDuration := (nthI A (start + 1)).duration,
    onPower := onPowerSum / (rep : ℚ),
    offPower := offPowerSum / (rep : ℚ) }

/-- The odd-length trimming step of `replaceOverUnderSequence` (zwo.js
lines 204-220): for odd-length sequences drop the first or the last
interval, preferring whichever drop avoids splitting an interval, and
otherwise dropping next to the larger duration excess. -/
def trimOdd (A : List ZwiftInterval) (start stop : ℕ) : ℕ × ℕ :=
  if (stop - start + 1) % 2 ≠ 0 then
    if (nthI A start).duration = (nthI A (start + 2)).duration then
      (start, stop - 1)
    else if (nthI A stop).duration = (nthI A (stop - 2)).duration then
      (start + 1, stop)
    else if (nthI A start).duration - (nthI A (start + 2)).duration ≥
        (nthI A stop).duration - (nthI A (stop - 2)).duration then
      (start, stop - 1)
    else (start + 1, stop)
  else (start, stop)

/-- The first-interval split of `replaceOverUnderSequence` (zwo.js lines
221-226): if the first "on" interval is longer than the pattern, insert a
copy of the pattern interval after it, shorten the original by the
inserted duration, and advance the sequence window. -/
def splitFirst (A : List ZwiftInterval) (start stop : ℕ) :
    List ZwiftInterval × ℕ × ℕ :=
  if (nthI A start).duration ≠ (nthI A (start + 2)).duration then
    let A1 := spliceIns A (start + 1) (nthI A (start + 2))
    let A2 := updDur A1 start (nthI A1 (start + 1)).duration
    (A2, start + 1, stop + 1)
  else (A, start, stop)

/-- The last-interval split of `replaceOverUnderSequence` (zwo.js lines
227-231): if the last "off" interval is longer than the pattern, insert a
copy of the pattern interval before it and shorten the pushed-out
original by the inserted duration. -/
def splitLast (A : List ZwiftInterval) (start stop : ℕ) :
    List ZwiftInterval :=
  if (nthI A stop).duration ≠ (nthI A (stop - 2)).duration then
    let A1 := spliceIns A stop (nthI A (stop - 2))
    updDur A1 (stop + 1) (nthI A1 stop).duration
  else A

/-- `replaceOverUnderSequence` (zwo.js lines 203-235): trim an odd-length
sequence, split a long first "on" and a long last "off" interval, then
replace the (trimmed-length) run by the single over-under interval and
return the index of that interval.  The source mutates `length` along
with the trim, so the count spliced out is the trimmed length. -/
def replaceOverUnderSequence (A : List ZwiftInterval) (start stop : ℕ) :
    List ZwiftInterval × ℕ :=
  let t := trimOdd A start stop
  let len := t.2 - t.1 + 1
  let f := splitFirst A t.1 t.2
  let B := splitLast f.1 f.2.1 f.2.2
  let ouInterval := createOverUnder B f.2.1 f.2.2
  (spliceRepl B f.2.1 len ouInterval, f.2.1)

/-- `closeMatch` (zwo.js lines 245-249): power targets of two intervals
agree within the over-under epsilon (3 for "loose", else 0). -/
def closeMatch (options : Options) (A : List ZwiftInterval) (a b : ℕ) : Bool :=
  let epsilon : ℚ := if options.ouConversion == "loose" then 3 else 0
  decide (|(nthI A a).startPower - (nthI A b).startPower| ≤ epsilon)

/-- The sequence-ending step of `convertOverUnderSequences` (zwo.js lines
299-306): replace a qualifying run (length at least 4) and resume at the
index of the inserted over-under interval, otherwise resume at the start
of the failed candidate; in both cases the candidate is reset. -/
def ouFinish (A : List ZwiftInterval) (s stop : ℕ) :
    List ZwiftInterval × ℕ × Option ℕ :=
  if 4 ≤ stop - s + 1 then
    let r := replaceOverUnderSequence A s stop
    (r.1, r.2, none)
  else (A, s, none)

/-- One iteration of the body of `convertOverUnderSequences` (zwo.js
lines 259-307), before the `index++` of the loop.  The result is the
interval array, the value of `index` after the body, and the candidate
`start` (`none` is the source's `undefined`).  Guarded reads such as
`intervals[index]?.type` are false out of range because `undefInterval`
is not steady-state. -/
def ouScanStep (options : Options) (A : List ZwiftInterval) (index : ℕ)
    (start : Option ℕ) : List ZwiftInterval × ℕ × Option ℕ :=
  if (nthI A index).type = STEADY_STATE then
    match start with
    | none => (A, index, some index)
    | some s =>
      if s + 1 = index then (A, index, some s)
      else if closeMatch options A index (index - 2) then
        if (nthI A index).duration = (nthI A (index - 2)).duration then
          (A, index, some s)
        else if s + 2 = index ∧ (nthI A (index - 2)).duration ≥
            (nthI A index).duration + 10 then
          (A, index, some s)
        else if (nthI A index).duration ≥
            (nthI A (index - 2)).duration + 10 then
          ouFinish A s index
        else ouFinish A s (index - 1)
      else ouFinish A s (index - 1)
  else
    match start with
    | none => (A, index, none)
    | some s => ouFinish A s (index - 1)

/-- The loop of `convertOverUnderSequences`, with explicit fuel.  The
loop condition is `index <= intervals.length`; the fuel provided in
`convertOverUnderSequences` is generous for the loop's restart pattern
(each failed candidate rescans at most its own length, and each
replacement shortens the array). -/
def convertLoop (options : Options) :
    ℕ → List ZwiftInterval → ℕ → Option ℕ → List ZwiftInterval
  | 0, A, _, _ => A
  | Nat.succ fuel, A, index, start =>
    if A.length < index then A
    else
      let st := ouScanStep options A index start
      convertLoop options fuel st.1 (st.2.1 + 1) st.2.2

/-- `convertOverUnderSequences` (zwo.js lines 257-308). -/
def convertOverUnderSequences (options : Options) (A : List ZwiftInterval) :
    List ZwiftInterval :=
  convertLoop options ((A.length + 2) ^ 3) A 0 none

/-- `processOverUnders` (zwo.js lines 172-314). -/
def processOverUnders (intervals : List ZwiftInterval) (options : Options) :
    List ZwiftInterval :=
  if options.ouConversion != "none" then
    convertOverUnderSequences options intervals
  else intervals

/-- `getZwiftIntervals` (zwo.js lines 31-321). -/
def getZwiftIntervals (data : List DataPoint) (options : Options) :
    List ZwiftInterval :=
  if validWorkoutData data then
    processOverUnders (getSimpleIntervals data options) options
  else []

/-- The characters removed by JavaScript's `String.prototype.trimEnd`
(the ASCII portion relevant to workout names). -/
def isJsWhitespace (c : Char) : Bool :=
  c == ' ' || c == '\t' || c == '\n' || c == '\r' || c == '\x0b' || c == '\x0c'

/-- `String.prototype.trimEnd`. -/
def jsTrimEnd (s : String) : String :=
  String.mk (s.data.reverse.dropWhile isJsWhitespace).reverse

/-- Template-literal rendering `${q}` of a JavaScript number; every
number interpolated by the serializer on reachable inputs is an
integer. -/
def qstr (q : ℚ) : String :=
  if q.den = 1 then toString q.num else toString q

/-- Two-digit zero padding for the fraction part of `toFixed(2)`. -/
def pad2 (n : ℕ) : String :=
  if n < 10 then "0" ++ toString n else toString n

/-- `Number.prototype.toFixed(2)`: two decimal places, rounding half up
(the tie behaviour on exact binary halves does not arise for the
percent-of-FTP values serialized here). -/
def toFixed2 (q : ℚ) : String :=
  let m : ℤ := ⌊q * 100 + 1/2⌋
  (if m < 0 then "-" else "") ++
    toString (m.natAbs / 100) ++ "." ++ pad2 (m.natAbs % 100)

/-- The source function `normalize` (zwo.js lines 375-377; renamed here because Mathlib already declares `normalize`): percent as a fraction of 100 with
two decimal places. -/
def normalizePct (percentage : ℚ) : String :=
  toFixed2 (percentage / 100)

/-- The XML element name of each interval type (the strings of the
`IntervalType` enum). -/
def typeName : IntervalType → String
  | STEADY_STATE => "SteadyState"
  | RAMP => "Ramp"
  | OVER_UNDER => "IntervalsT"

/-- `intervalToString` (zwo.js lines 368-396). -/
def intervalToString (i : ZwiftInterval) : String :=
  match i.type with
  | STEADY_STATE =>
    "\t\t<" ++ typeName i.type ++ " Duration=\"" ++ qstr i.duration ++
      "\" Power=\"" ++ normalizePct i.startPower ++ "\"/>"
  | RAMP =>
    "\t\t<" ++ typeName i.type ++ " Duration=\"" ++ qstr i.duration ++
      "\" PowerLow=\"" ++ normalizePct i.startPower ++
      "\" PowerHigh=\"" ++ normalizePct i.endPower ++ "\"/>"
  | OVER_UNDER =>
    "\t\t<" ++ typeName i.type ++ " Repeat=\"" ++ toString i.rep ++
      "\" OnDuration=\"" ++ qstr i.onDuration ++
      "\" OffDuration=\"" ++ qstr i.offDuration ++
      "\" OnPower=\"" ++ normalizePct i.onPower ++
      "\" OffPower=\"" ++ normalizePct i.offPower ++ "\"/>"

/-- A TrainerRoad zone record; `Description` is the zone's display name
(`none` models an absent property). -/
structure Zone where
  Description : Option String
  deriving DecidableEq, Repr

/-- `zoneToTag` (zwo.js lines 355-361): an empty string for a zone whose
`Description` is missing or empty (both are falsy), otherwise one tag
line. -/
def zoneToTag (zone : Zone) : String :=
  match zone.Description with
  | none => ""
  | some s => if s = "" then "" else "\t\t<tag name=\"" ++ s ++ "\"/>"

/-- The `Details` record of a TrainerRoad workout, restricted to the
fields the serializer reads. -/
structure WorkoutDetails where
  WorkoutName : Option String
  WorkoutDescription : Option String
  GoalDescription : Option String
  Zones : Option (List Zone)
  deriving DecidableEq, Repr

/-- A TrainerRoad workout as consumed by `generateZwiftWorkout`.
`WorkoutData` is modelled as a list (a missing or non-array value is
rejected by `validWorkoutData` just like an empty list, so the claims
are unaffected). -/
structure Workout where
  Details : Option WorkoutDetails
  WorkoutData : List DataPoint
  deriving DecidableEq, Repr

/-- The result of `generateZwiftWorkout`. -/
structure ZwiftFile where
  filename : String
  content : String
  deriving DecidableEq, Repr

/-- `generateZwiftWorkout` (zwo.js lines 332-425).  `htmlToText` is the
DOM-based HTML-to-plain-text helper (zwo.js lines 339-348), abstracted
as a parameter because `DOMParser` is part of the browser environment;
it receives the optional description field (the source returns `''` for
a missing argument, which a parameter instance models by its value at
`none`).  When `Details?.Zones` is absent, the template literal
interpolates the JavaScript value `undefined` as the string
"undefined". -/
def generateZwiftWorkout (htmlToText : Option String → String)
    (workout : Workout) (options : Options) : ZwiftFile :=
  let details := workout.Details
  let name :=
    match details.bind (fun d => d.WorkoutName) with
    | some s => if jsTrimEnd s = "" then "Unnamed Workout" else jsTrimEnd s
    | none => "Unnamed Workout"
  let workoutDescription :=
    htmlToText (details.bind (fun d => d.WorkoutDescription)) ++ "\n"
  let goalDescription :=
    htmlToText (details.bind (fun d => d.GoalDescription)) ++ "\n"
  let tags :=
    match details.bind (fun d => d.Zones) with
    | some zones => String.intercalate "\n" (zones.map zoneToTag)
    | none => "undefined"
  let intervals := getZwiftIntervals workout.WorkoutData options
  let segments := String.intercalate "\n" (intervals.map intervalToString)
  let content :=
    "<workout_file>\n" ++
    "\t<author>TrainerRoad</author>\n" ++
    "\t<name>" ++ name ++ "</name>\n" ++
    "\t<description>" ++
    "<![CDATA[" ++ workoutDescription ++ "\n" ++ goalDescription ++ "]]>" ++
    "</description>\n" ++
    "\t<sportType>bike</sportType>\n" ++
    "\t<tags>\n" ++
    tags ++ "\n" ++
    "\t</tags>\n" ++
    "\t<workout>\n" ++
    segments ++ "\n" ++
    "\t</workout>\n" ++
    "</workout_file>\n"
  { filename := name ++ ".zwo", content := content }

attribute [local semireducible] Rat.add Rat.mul Rat.inv Rat.sub Rat.ofScientific

/-- The duration contributed by one interval to the workout, expanding an
over-under interval as `repeat × (onDuration + offDuration)`. -/
def expandedDuration (i : ZwiftInterval) : ℚ :=
  match i.type with
  | OVER_UNDER => (i.rep : ℚ) * (i.onDuration + i.offDuration)
  | _ => i.duration

/-- Total workout duration represented by an interval sequence. -/
def durSum (A : List ZwiftInterval) : ℚ :=
  (A.map expandedDuration).sum

/-- The indices at and after `index` at which the segmentation loop
closes an interval. -/
def closingIdxs (data : List DataPoint) (index : ℕ) : List ℕ :=
  (List.range' index (data.length - index)).filter (closesAt data)

/-- The interval list determined by a start index and a list of closing
indices: each closing index ends one interval and starts the next. -/
def chain (data : List DataPoint) (options : Options) :
    ℕ → List ℕ → List ZwiftInterval
  | _, [] => []
  | s, i :: is => closeInterval data options s i :: chain data options i is

/-- Consecutive (start, stop) sample-index pairs of the intervals the
segmentation closes: 0 paired with the first closing index, then each
closing index paired with the next. -/
def boundPairs (data : List DataPoint) : List (ℕ × ℕ) :=
  (0 :: closingIdxs data 1).zip (closingIdxs data 1)

/-- The claim-level slope-change predicate at index `i`: the slope ending
at `i` and the slope starting at `i` both exist and differ by at least
0.001 %FTP/s in absolute value.  (The slope starting at `i` exists only
when `i` is not the terminal index.) -/
def slopeChangeAt (data : List DataPoint) (i : ℕ) : Prop :=
  i + 1 < data.length ∧ |nslope data (i - 1) - nslope data i| ≥ 1/1000

/-- All of `A[s..e]` are steady-state intervals. -/
def steadyOn (A : List ZwiftInterval) (s e : ℕ) : Prop :=
  ∀ i, s ≤ i → i ≤ e → (nthI A i).type = STEADY_STATE

/-- Durations inside a candidate over-under run `A[s..e]`: every member
matches the member two positions earlier, except possibly the third
member (a long first interval pending a split) and the last member (a
long last interval pending a split). -/
def runShape (A : List ZwiftInterval) (s e : ℕ) : Prop :=
  ∀ i, s + 2 ≤ i → i ≤ e →
    (nthI A i).duration = (nthI A (i - 2)).duration ∨ i = s + 2 ∨ i = e

/-- Durations inside a candidate run still being accumulated by the
scan: as `runShape`, but the only allowed mismatch is the third
member. -/
def runAccShape (A : List ZwiftInterval) (s e : ℕ) : Prop :=
  ∀ i, s + 2 ≤ i → i ≤ e →
    (nthI A i).duration = (nthI A (i - 2)).duration ∨ i = s + 2

/-- Fully uniform durations: every member of `A[s..e]` matches the member
two positions earlier. -/
def uniformOn (A : List ZwiftInterval) (s e : ℕ) : Prop :=
  ∀ i, s + 2 ≤ i → i ≤ e →
    (nthI A i).duration = (nthI A (i - 2)).duration

/-- Run durations after the first-interval split: every member of
`A[s..e]` matches the member two positions earlier, except possibly the
last member (a long last interval pending a split). -/
def endShape (A : List ZwiftInterval) (s e : ℕ) : Prop :=
  ∀ i, s + 2 ≤ i → i ≤ e →
    (nthI A i).duration = (nthI A (i - 2)).duration ∨ i = e

/-- The loop invariant of the `convertOverUnderSequences` scan: when a
candidate run is open, it starts before the scan index, stays inside the
array, and all its members are steady-state with accumulated run
durations. -/
def scanInv (A : List ZwiftInterval) (index : ℕ) (start : Option ℕ) : Prop :=
  match start with
  | none => True
  | some s =>
    s + 1 ≤ index ∧ index ≤ A.length ∧
      steadyOn A s (index - 1) ∧ runAccShape A s (index - 1)

/-- The default conversion options (`rampConversion` "none",
`ouConversion` "strict"). -/
def strictOptions : Options := { rampConversion := "none", ouConversion := "strict" }

/-- The sample series of the spec's round-trip scenario, with the
raw millisecond timestamps of the TrainerRoad payload (the scenario's
instants 0, 59, 60, ..., 240 seconds). -/
def roundTripData : List DataPoint :=
  [⟨0, 80⟩, ⟨59000, 80⟩, ⟨60000, 100⟩, ⟨119000, 100⟩, ⟨120000, 80⟩,
   ⟨179000, 80⟩, ⟨180000, 100⟩, ⟨239000, 100⟩, ⟨240000, 0⟩]

/-- A valid series whose first interval is a warmup ramp (80 to 90 over
10 s) followed by a steady interval. -/
def warmupRampData : List DataPoint :=
  [⟨0, 80⟩, ⟨10000, 90⟩, ⟨20000, 90⟩]

/-- A valid series forming a single ramp from 80 to 91 over 10 s, whose
power midpoint 85.5 is not an integer. -/
def midpointRampData : List DataPoint :=
  [⟨0, 80⟩, ⟨10000, 91⟩]

/-- Ramp-conversion options "internal" (over-under conversion off). -/
def internalOptions : Options := { rampConversion := "internal", ouConversion := "none" }

/-- Ramp-conversion options "all" (over-under conversion off). -/
def allRampOptions : Options := { rampConversion := "all", ouConversion := "none" }

/-- An HTML-to-text instance for concrete serializer evaluations. -/
def noHtml : Option String → String := fun _ => ""

/-- A workout whose sample series is malformed (a single data point) but
whose metadata is complete. -/
def badDataWorkout : Workout :=
  { Details := some
      { WorkoutName := some "W",
        WorkoutDescription := none,
        GoalDescription := none,
        Zones := some [] },
    WorkoutData := [⟨0, 80⟩] }

/-- A workout with one named zone followed by one zone without a display
name (and malformed sample data, so the workout section is empty). -/
def zonesWorkout : Workout :=
  { Details := some
      { WorkoutName := some "Z",
        WorkoutDescription := none,
        GoalDescription := none,
        Zones := some [{ Description := some "Sweet Spot" }, { Description := none }] },
    WorkoutData := [⟨0, 80⟩] }

/-- A run of four steady-state intervals forming an over-under pattern
(60 s at 80 alternating with 60 s at 100). -/
def ouRunIntervals : List ZwiftInterval :=
  [{ type := STEADY_STATE, duration := 60, startPower := 80, endPower := 80 },
   { type := STEADY_STATE, duration := 60, startPower := 100, endPower := 100 },
   { type := STEADY_STATE, duration := 60, startPower := 80, endPower := 80 },
   { type := STEADY_STATE, duration := 60, startPower := 100, endPower := 100 }]

/-- The workout name chosen by `generateZwiftWorkout` (zwo.js lines
399-400): the trailing-whitespace-trimmed `WorkoutName`, or the fallback
"Unnamed Workout" when the field is missing or trims to the empty
string. -/
def workoutName (w : Workout) : String :=
  match w.Details.bind (fun d => d.WorkoutName) with
  | some s => if jsTrimEnd s = "" then "Unnamed Workout" else jsTrimEnd s
  | none => "Unnamed Workout"

/-- The string interpolated into the `<tags>` element by
`generateZwiftWorkout` (zwo.js lines 403-409). -/
def workoutTags (w : Workout) : String :=
  match w.Details.bind (fun d => d.Zones) with
  | some zones => String.intercalate "\n" (zones.map zoneToTag)
  | none => "undefined"

theorem nthI_of_getElem {A : List ZwiftInterval} {i : ℕ} (h : i < A.length) :
    nthI A i = A[i] := by
  simp [nthI, List.getElem?_eq_getElem h]

theorem nthI_lt_length {A : List ZwiftInterval} {i : ℕ}
    (h : (nthI A i).type = STEADY_STATE) : i < A.length := by
  by_contra hc
  have : A[i]? = none := List.getElem?_eq_none (by omega)
  simp [nthI, this, undefInterval] at h

theorem length_spliceIns {A : List ZwiftInterval} {i : ℕ} (x : ZwiftInterval)
    (h : i ≤ A.length) : (spliceIns A i x).length = A.length + 1 := by
  simp [spliceIns]
  omega

theorem nthI_spliceIns_lt {A : List ZwiftInterval} {i : ℕ} {x : ZwiftInterval}
    {j : ℕ} (hij : j < i) (h : i ≤ A.length) :
    nthI (spliceIns A i x) j = nthI A j := by
  have hjt : j < (A.take i).length := by simp; omega
  simp [spliceIns, nthI, List.getElem?_append_left hjt,
    List.getElem?_take_of_lt hij]

theorem nthI_spliceIns_self {A : List ZwiftInterval} {i : ℕ} {x : ZwiftInterval}
    (h : i ≤ A.length) : nthI (spliceIns A i x) i = x := by
  have ht : (A.take i).length = i := by simp; omega
  have : (A.take i ++ x :: A.drop i)[i]? = (x :: A.drop i)[i - (A.take i).length]? :=
    List.getElem?_append_right (by omega)
  simp [spliceIns, nthI, this, ht]

theorem nthI_spliceIns_gt {A : List ZwiftInterval} {i : ℕ} {x : ZwiftInterval}
    {j : ℕ} (hij : i < j) (h : i ≤ A.length) :
    nthI (spliceIns A i x) j = nthI A (j - 1) := by
  have ht : (A.take i).length = i := by simp; omega
  have h1 : (spliceIns A i x)[j]? = (x :: A.drop i)[j - i]? := by
    rw [spliceIns, List.getElem?_append_right (by omega : (A.take i).length ≤ j), ht]
  obtain ⟨k, hk⟩ : ∃ k, j - i = k + 1 := ⟨j - i - 1, by omega⟩
  rw [nthI, h1, hk, List.getElem?_cons_succ, List.getElem?_drop, nthI]
  congr 2
  omega

theorem length_updDur (A : List ZwiftInterval) (i : ℕ) (δ : ℚ) :
    (updDur A i δ).length = A.length := by
  simp [updDur]

theorem nthI_updDur_ne {A : List ZwiftInterval} {i : ℕ} {δ : ℚ} {j : ℕ}
    (h : j ≠ i) : nthI (updDur A i δ) j = nthI A j := by
  simp [updDur, nthI, List.getElem?_set_ne (Ne.symm h)]

theorem nthI_updDur_self {A : List ZwiftInterval} {i : ℕ} {δ : ℚ}
    (h : i < A.length) :
    nthI (updDur A i δ) i =
      { nthI A i with duration := (nthI A i).duration - δ } := by
  simp [updDur, nthI, List.getElem?_set_self h]

theorem durSum_nil : durSum [] = 0 := rfl

theorem durSum_cons (x : ZwiftInterval) (A : List ZwiftInterval) :
    durSum (x :: A) = expandedDuration x + durSum A := by
  simp [durSum]

theorem durSum_append (A B : List ZwiftInterval) :
    durSum (A ++ B) = durSum A + durSum B := by
  simp [durSum]

theorem expandedDuration_keep_type (x : ZwiftInterval)
    (h : x.type ≠ OVER_UNDER) : expandedDuration x = x.duration := by
  cases hx : x.type <;> simp [expandedDuration, hx] <;> simp [hx] at h

theorem durSum_spliceIns {A : List ZwiftInterval} {i : ℕ} {x : ZwiftInterval}
    (h : i ≤ A.length) :
    durSum (spliceIns A i x) = durSum A + expandedDuration x := by
  have hA : A = A.take i ++ A.drop i := (List.take_append_drop i A).symm
  calc durSum (spliceIns A i x)
      = durSum (A.take i) + (expandedDuration x + durSum (A.drop i)) := by
        simp [spliceIns, durSum_append, durSum_cons]
    _ = durSum A + expandedDuration x := by
        conv_rhs => rw [hA]
        rw [durSum_append]; ring

theorem durSum_updDur {A : List ZwiftInterval} {i : ℕ} {δ : ℚ}
    (h : i < A.length) (hty : (nthI A i).type ≠ OVER_UNDER) :
    durSum (updDur A i δ) = durSum A - δ := by
  have hset : A.set i { nthI A i with duration := (nthI A i).duration - δ } =
      A.take i ++ { nthI A i with duration := (nthI A i).duration - δ } ::
        A.drop (i + 1) := by
    rw [List.set_eq_take_append_cons_drop]
    simp [h]
  have hA : A = A.take i ++ nthI A i :: A.drop (i + 1) := by
    conv_lhs => rw [← List.take_append_drop i A]
    rw [← List.getElem_cons_drop A i h, nthI_of_getElem h]
  have hf : expandedDuration { nthI A i with duration := (nthI A i).duration - δ } =
      (nthI A i).duration - δ := by
    apply expandedDuration_keep_type
    simpa using hty
  rw [updDur, hset, durSum_append, durSum_cons, hf]
  conv_rhs => rw [hA]
  rw [durSum_append, durSum_cons, expandedDuration_keep_type _ hty]
  ring

theorem durSum_decompose (A : List ZwiftInterval) (i len : ℕ) :
    durSum A = durSum (A.take i) + durSum ((A.drop i).take len) +
      durSum (A.drop (i + len)) := by
  conv_lhs => rw [← List.take_append_drop i A]
  rw [durSum_append]
  conv_lhs => rw [← List.take_append_drop len (A.drop i)]
  rw [durSum_append, List.drop_drop]
  ring_nf

theorem length_spliceRepl {A : List ZwiftInterval} {i len : ℕ}
    (x : ZwiftInterval) (h : i + len ≤ A.length) :
    (spliceRepl A i len x).length = A.length - len + 1 := by
  simp [spliceRepl]
  omega

theorem durSum_spliceRepl (A : List ZwiftInterval) (i len : ℕ)
    (x : ZwiftInterval) :
    durSum (spliceRepl A i len x) =
      durSum (A.take i) + expandedDuration x + durSum (A.drop (i + len)) := by
  rw [spliceRepl, durSum_append, durSum_cons]
  ring

theorem spliceRepl_ne_nil (A : List ZwiftInterval) (i len : ℕ)
    (x : ZwiftInterval) : spliceRepl A i len x ≠ [] := by
  intro h
  have : x ∈ spliceRepl A i len x := by
    simp [spliceRepl]
  rw [h] at this
  exact absurd this (List.not_mem_nil x)

theorem durSum_slice {A : List ZwiftInterval} {S : ℕ} :
    ∀ {len : ℕ}, S + len ≤ A.length →
    durSum ((A.drop S).take len) =
      ((List.range len).map (fun k => expandedDuration (nthI A (S + k)))).sum := by
  intro len
  induction len with
  | zero => intro _; simp [durSum]
  | succ n ih =>
    intro h
    have hlt : S + n < A.length := by omega
    have hgd : (A.drop S)[n]? = some A[S + n] := by
      rw [List.getElem?_drop, List.getElem?_eq_getElem (by omega : S + n < A.length)]
    rw [List.take_succ, hgd]
    rw [durSum_append, List.range_succ, List.map_append, List.sum_append,
      ih (by omega)]
    simp [durSum_cons, durSum_nil, nthI_of_getElem hlt]

theorem sum_range_pairs (g : ℕ → ℚ) :
    ∀ r : ℕ, ((List.range (2 * r)).map g).sum =
      ((List.range r).map (fun k => g (2 * k) + g (2 * k + 1))).sum := by
  intro r
  induction r with
  | zero => simp
  | succ n ih =>
    have h2 : 2 * (n + 1) = (2 * n + 1) + 1 := by ring
    rw [h2, List.range_succ, List.range_succ, List.map_append, List.sum_append,
      List.map_append, List.sum_append, ih, List.range_succ, List.map_append,
      List.sum_append]
    simp
    ring

theorem sum_range_const (c : ℚ) (r : ℕ) :
    ((List.range r).map (fun _ => c)).sum = r * c := by
  induction r with
  | zero => simp
  | succ n ih =>
    rw [List.range_succ, List.map_append, List.sum_append, ih]
    push_cast
    simp
    ring

theorem uniformOn_even {A : List ZwiftInterval} {S E : ℕ}
    (hu : uniformOn A S E) :
    ∀ k : ℕ, S + 2 * k ≤ E → (nthI A (S + 2 * k)).duration = (nthI A S).duration := by
  intro k
  induction k with
  | zero => intro _; norm_num
  | succ n ih =>
    intro h
    have h1 : S + 2 * (n + 1) = S + 2 * n + 2 := by ring
    have h2 := hu (S + 2 * n + 2) (by omega) (by omega)
    have h3 : S + 2 * n + 2 - 2 = S + 2 * n := by omega
    rw [h1, h2, h3, ih (by omega)]

theorem uniformOn_odd {A : List ZwiftInterval} {S E : ℕ}
    (hu : uniformOn A S E) :
    ∀ k : ℕ, S + 2 * k + 1 ≤ E →
      (nthI A (S + 2 * k + 1)).duration = (nthI A (S + 1)).duration := by
  intro k
  induction k with
  | zero => intro _; norm_num
  | succ n ih =>
    intro h
    have h1 : S + 2 * (n + 1) + 1 = (S + 2 * n + 1) + 2 := by ring
    have h2 := hu ((S + 2 * n + 1) + 2) (by omega) (by omega)
    have h3 : (S + 2 * n + 1) + 2 - 2 = S + 2 * n + 1 := by omega
    rw [h1, h2, h3, ih (by omega)]

theorem steadyOn_mono {A : List ZwiftInterval} {s e s' e' : ℕ}
    (h1 : s ≤ s') (h2 : e' ≤ e) (hst : steadyOn A s e) : steadyOn A s' e' :=
  fun i hi1 hi2 => hst i (le_trans h1 hi1) (le_trans hi2 h2)

theorem steady_expanded {A : List ZwiftInterval} {s e i : ℕ}
    (hst : steadyOn A s e) (h1 : s ≤ i) (h2 : i ≤ e) :
    expandedDuration (nthI A i) = (nthI A i).duration := by
  apply expandedDuration_keep_type
  rw [hst i h1 h2]
  intro h
  exact absurd h (by simp)

theorem runShape_endTrim {A : List ZwiftInterval} {s e : ℕ}
    (h : s + 4 ≤ e) (hsh : runShape A s e) : runShape A s (e - 1) := by
  intro i hi1 hi2
  rcases hsh i hi1 (by omega) with h' | h' | h'
  · exact Or.inl h'
  · exact Or.inr (Or.inl h')
  · omega

theorem runShape_startTrim {A : List ZwiftInterval} {s e : ℕ}
    (h : s + 4 ≤ e) (hsh : runShape A s e) : runShape A (s + 1) e := by
  intro i hi1 hi2
  rcases hsh i (by omega) hi2 with h' | h' | h'
  · exact Or.inl h'
  · omega
  · exact Or.inr (Or.inr h')

theorem trimOdd_bounds {A : List ZwiftInterval} {s e : ℕ}
    (hse : s + 3 ≤ e) :
    s ≤ (trimOdd A s e).1 ∧ (trimOdd A s e).1 ≤ s + 1 ∧
    e - 1 ≤ (trimOdd A s e).2 ∧ (trimOdd A s e).2 ≤ e ∧
    (trimOdd A s e).1 + 3 ≤ (trimOdd A s e).2 ∧
    ((trimOdd A s e).2 - (trimOdd A s e).1) % 2 = 1 := by
  unfold trimOdd
  split
  · next hodd =>
    have hev : (e - s) % 2 = 0 := by omega
    have h5 : s + 4 ≤ e := by omega
    split
    · exact ⟨by omega, by omega, by omega, by omega, by omega, by omega⟩
    · split
      · exact ⟨by omega, by omega, by omega, by omega, by omega, by omega⟩
      · split
        · exact ⟨by omega, by omega, by omega, by omega, by omega, by omega⟩
        · exact ⟨by omega, by omega, by omega, by omega, by omega, by omega⟩
  · next hev =>
    have : (e - s) % 2 = 1 := by omega
    exact ⟨by omega, by omega, by omega, by omega, by omega, by omega⟩

theorem trimOdd_shape {A : List ZwiftInterval} {s e : ℕ}
    (hse : s + 3 ≤ e) (hst : steadyOn A s e) (hsh : runShape A s e) :
    steadyOn A (trimOdd A s e).1 (trimOdd A s e).2 ∧
    runShape A (trimOdd A s e).1 (trimOdd A s e).2 := by
  have hb := trimOdd_bounds (A := A) hse
  rcases hb with ⟨hb1, hb2, hb3, hb4, hb5, _⟩
  refine ⟨steadyOn_mono hb1 hb4 hst, ?_⟩
  unfold trimOdd
  split
  · next hodd =>
    have h5 : s + 4 ≤ e := by omega
    split
    · exact runShape_endTrim h5 hsh
    · split
      · exact runShape_startTrim h5 hsh
      · split
        · exact runShape_endTrim h5 hsh
        · exact runShape_startTrim h5 hsh
  · exact hsh

theorem splitFirst_bounds {A : List ZwiftInterval} {s e : ℕ}
    (hse : s + 3 ≤ e) (he : e < A.length) :
    A.length ≤ (splitFirst A s e).1.length ∧
    (splitFirst A s e).1.length ≤ A.length + 1 ∧
    (splitFirst A s e).2.2 = (splitFirst A s e).2.1 + (e - s) ∧
    s ≤ (splitFirst A s e).2.1 ∧
    (splitFirst A s e).2.2 < (splitFirst A s e).1.length := by
  unfold splitFirst
  split
  · have hs1 : s + 1 ≤ A.length := by omega
    simp only [length_updDur, length_spliceIns _ hs1]
    refine ⟨by omega, by omega, by omega, by omega, by omega⟩
  · simp only
    refine ⟨le_refl _, by omega, by omega, le_refl _, by omega⟩

theorem splitFirst_shape {A : List ZwiftInterval} {s e : ℕ}
    (hse : s + 3 ≤ e) (he : e < A.length)
    (hst : steadyOn A s e) (hsh : runShape A s e) :
    durSum (splitFirst A s e).1 = durSum A ∧
    steadyOn (splitFirst A s e).1 (splitFirst A s e).2.1 (splitFirst A s e).2.2 ∧
    endShape (splitFirst A s e).1 (splitFirst A s e).2.1 (splitFirst A s e).2.2 := by
  unfold splitFirst
  split
  · next hne =>
    have hs1 : s + 1 ≤ A.length := by omega
    have hXa : nthI (spliceIns A (s + 1) (nthI A (s + 2))) (s + 1) =
        nthI A (s + 2) := nthI_spliceIns_self hs1
    simp only
    rw [hXa]
    have hlenA1 : (spliceIns A (s + 1) (nthI A (s + 2))).length = A.length + 1 :=
      length_spliceIns _ hs1
    have hXsteady : (nthI A (s + 2)).type = STEADY_STATE :=
      hst (s + 2) (by omega) (by omega)
    have hB1 : nthI (updDur (spliceIns A (s + 1) (nthI A (s + 2))) s
        (nthI A (s + 2)).duration) (s + 1) = nthI A (s + 2) := by
      rw [nthI_updDur_ne (by omega), hXa]
    have hBgt : ∀ j, s + 2 ≤ j →
        nthI (updDur (spliceIns A (s + 1) (nthI A (s + 2))) s
          (nthI A (s + 2)).duration) j = nthI A (j - 1) := by
      intro j hj
      rw [nthI_updDur_ne (by omega), nthI_spliceIns_gt (by omega) hs1]
    refine ⟨?_, ?_, ?_⟩
    · have hd1 : durSum (spliceIns A (s + 1) (nthI A (s + 2))) =
          durSum A + (nthI A (s + 2)).duration := by
        rw [durSum_spliceIns hs1, expandedDuration_keep_type _ (by rw [hXsteady]; simp)]
      have hsA : (nthI (spliceIns A (s + 1) (nthI A (s + 2))) s).type ≠ OVER_UNDER := by
        rw [nthI_spliceIns_lt (by omega) hs1, hst s (le_refl s) (by omega)]
        simp
      rw [durSum_updDur (by omega) hsA, hd1]
      ring
    · intro i hi1 hi2
      rcases Nat.eq_or_lt_of_le hi1 with h | h
      · rw [← h, hB1]; exact hXsteady
      · rw [hBgt i (by omega)]
        exact hst (i - 1) (by omega) (by omega)
    · intro i hi1 hi2
      rcases Nat.eq_or_lt_of_le hi1 with h | h
      · left
        have h3 : i = s + 3 := by omega
        rw [h3, hBgt (s + 3) (by omega)]
        have : s + 3 - 2 = s + 1 := by omega
        rw [this, hB1]
        norm_num
      · have hi4 : s + 4 ≤ i := by omega
        rcases hsh (i - 1) (by omega) (by omega) with h' | h' | h'
        · left
          rw [hBgt i (by omega), hBgt (i - 2) (by omega)]
          have e1 : i - 1 - 2 = i - 2 - 1 := by omega
          rw [h', e1]
        · omega
        · right; omega
  · next heq =>
    push_neg at heq
    simp only
    refine ⟨trivial, hst, ?_⟩
    intro i hi1 hi2
    rcases hsh i hi1 hi2 with h' | h' | h'
    · exact Or.inl h'
    · left
      rw [h']
      have : s + 2 - 2 = s := by omega
      rw [this, ← heq]
    · exact Or.inr h'

theorem splitLast_bounds {B : List ZwiftInterval} {S E : ℕ}
    (hse : S + 3 ≤ E) (he : E < B.length) :
    B.length ≤ (splitLast B S E).length ∧
    (splitLast B S E).length ≤ B.length + 1 ∧
    E < (splitLast B S E).length := by
  unfold splitLast
  split
  · have hE : E ≤ B.length := by omega
    simp only [length_updDur, length_spliceIns _ hE]
    refine ⟨by omega, by omega, by omega⟩
  · exact ⟨le_refl _, by omega, he⟩

theorem splitLast_shape {B : List ZwiftInterval} {S E : ℕ}
    (hse : S + 3 ≤ E) (he : E < B.length)
    (hst : steadyOn B S E) (hsh : endShape B S E) :
    durSum (splitLast B S E) = durSum B ∧
    steadyOn (splitLast B S E) S E ∧ uniformOn (splitLast B S E) S E := by
  unfold splitLast
  split
  · next hne =>
    have hE : E ≤ B.length := by omega
    have hYa : nthI (spliceIns B E (nthI B (E - 2))) E = nthI B (E - 2) :=
      nthI_spliceIns_self hE
    simp only
    rw [hYa]
    have hYsteady : (nthI B (E - 2)).type = STEADY_STATE :=
      hst (E - 2) (by omega) (by omega)
    have hClt : ∀ j, j < E →
        nthI (updDur (spliceIns B E (nthI B (E - 2))) (E + 1)
          (nthI B (E - 2)).duration) j = nthI B j := by
      intro j hj
      rw [nthI_updDur_ne (by omega), nthI_spliceIns_lt hj hE]
    have hCE : nthI (updDur (spliceIns B E (nthI B (E - 2))) (E + 1)
        (nthI B (E - 2)).duration) E = nthI B (E - 2) := by
      rw [nthI_updDur_ne (by omega), hYa]
    refine ⟨?_, ?_, ?_⟩
    · have hd1 : durSum (spliceIns B E (nthI B (E - 2))) =
          durSum B + (nthI B (E - 2)).duration := by
        rw [durSum_spliceIns hE, expandedDuration_keep_type _ (by rw [hYsteady]; simp)]
      have hsE1 : (nthI (spliceIns B E (nthI B (E - 2))) (E + 1)).type ≠ OVER_UNDER := by
        rw [nthI_spliceIns_gt (by omega) hE]
        have : E + 1 - 1 = E := by omega
        rw [this, hst E (by omega) (le_refl E)]
        simp
      have hlt : E + 1 < (spliceIns B E (nthI B (E - 2))).length := by
        rw [length_spliceIns _ hE]; omega
      rw [durSum_updDur hlt hsE1, hd1]
      ring
    · intro i hi1 hi2
      rcases Nat.lt_or_ge i E with h | h
      · rw [hClt i h]; exact hst i hi1 (by omega)
      · have : i = E := by omega
        rw [this, hCE]; exact hYsteady
    · intro i hi1 hi2
      rcases Nat.lt_or_ge i E with h | h
      · rw [hClt i h, hClt (i - 2) (by omega)]
        rcases hsh i hi1 (by omega) with h' | h'
        · exact h'
        · omega
      · have hiE : i = E := by omega
        rw [hiE, hCE, hClt (E - 2) (by omega)]
  · next heq =>
    push_neg at heq
    refine ⟨rfl, hst, ?_⟩
    intro i hi1 hi2
    rcases hsh i hi1 hi2 with h' | h'
    · exact h'
    · rw [h', heq]

theorem nthI_spliceRepl_self {A : List ZwiftInterval} {i len : ℕ}
    {x : ZwiftInterval} (h : i ≤ A.length) :
    nthI (spliceRepl A i len x) i = x := by
  have ht : (A.take i).length = i := by simp; omega
  have h1 : (spliceRepl A i len x)[i]? = (x :: A.drop (i + len))[i - i]? := by
    rw [spliceRepl]
    rw [List.getElem?_append_right (by omega : (A.take i).length ≤ i), ht]
  simp [nthI, h1]

theorem createOverUnder_type (A : List ZwiftInterval) (start stop : ℕ) :
    (createOverUnder A start stop).type = OVER_UNDER := by
  simp [createOverUnder]

theorem replace_aux {A : List ZwiftInterval} {s e t1 t2 : ℕ}
    (ht : trimOdd A s e = (t1, t2)) {B : List ZwiftInterval} {S E : ℕ}
    (hf : splitFirst A t1 t2 = (B, S, E)) :
    replaceOverUnderSequence A s e =
      (spliceRepl (splitLast B S E) S (t2 - t1 + 1)
        (createOverUnder (splitLast B S E) S E), S) := by
  simp only [replaceOverUnderSequence, ht, hf]

theorem replace_facts {A : List ZwiftInterval} {s e : ℕ}
    (hse : s + 3 ≤ e) (he : e < A.length) :
    (replaceOverUnderSequence A s e).1.length < A.length ∧
    (replaceOverUnderSequence A s e).1 ≠ [] ∧
    (nthI (replaceOverUnderSequence A s e).1
      (replaceOverUnderSequence A s e).2).type = OVER_UNDER := by
  rcases hT : trimOdd A s e with ⟨t1, t2⟩
  have hb := trimOdd_bounds (A := A) hse
  rw [hT] at hb
  simp only at hb
  obtain ⟨ht1, ht2, ht3, ht4, ht5, ht6⟩ := hb
  have ht2e : t2 < A.length := by omega
  rcases hF : splitFirst A t1 t2 with ⟨B, S, E⟩
  have hfb := splitFirst_bounds (A := A) ht5 ht2e
  rw [hF] at hfb
  simp only at hfb
  obtain ⟨hf1, hf2, hf3, hf4, hf5⟩ := hfb
  have hSE : S + 3 ≤ E := by omega
  have hlb := splitLast_bounds (B := B) hSE hf5
  obtain ⟨hl1, hl2, hl3⟩ := hlb
  rw [replace_aux hT hF]
  simp only
  have hlen : S + (t2 - t1 + 1) ≤ (splitLast B S E).length := by omega
  constructor
  · rw [length_spliceRepl _ hlen]
    omega
  constructor
  · exact spliceRepl_ne_nil _ _ _ _
  · rw [nthI_spliceRepl_self (by omega)]
    exact createOverUnder_type _ _ _

theorem expandedDuration_createOverUnder (A : List ZwiftInterval)
    (start stop : ℕ) :
    expandedDuration (createOverUnder A start stop) =
      (((stop - start + 1) / 2 : ℕ) : ℚ) *
        ((nthI A start).duration + (nthI A (start + 1)).duration) := by
  simp [createOverUnder, expandedDuration]

theorem replace_durSum {A : List ZwiftInterval} {s e : ℕ}
    (hse : s + 3 ≤ e) (he : e < A.length)
    (hst : steadyOn A s e) (hsh : runShape A s e) :
    durSum (replaceOverUnderSequence A s e).1 = durSum A := by
  rcases hT : trimOdd A s e with ⟨t1, t2⟩
  have hb := trimOdd_bounds (A := A) hse
  have hts := trimOdd_shape hse hst hsh
  rw [hT] at hb hts
  simp only at hb hts
  obtain ⟨ht1, ht2, ht3, ht4, ht5, ht6⟩ := hb
  obtain ⟨htst, htsh⟩ := hts
  have ht2e : t2 < A.length := by omega
  rcases hF : splitFirst A t1 t2 with ⟨B, S, E⟩
  have hfb := splitFirst_bounds (A := A) ht5 ht2e
  have hfs := splitFirst_shape ht5 ht2e htst htsh
  rw [hF] at hfb hfs
  simp only at hfb hfs
  obtain ⟨hf1, hf2, hf3, hf4, hf5⟩ := hfb
  obtain ⟨hfd, hfst, hfsh⟩ := hfs
  have hSE : S + 3 ≤ E := by omega
  obtain ⟨hl1, hl2, hl3⟩ := splitLast_bounds (B := B) hSE hf5
  obtain ⟨hld, hlst, hlu⟩ := splitLast_shape hSE hf5 hfst hfsh
  rw [replace_aux hT hF]
  simp only
  set C := splitLast B S E with hCdef
  have hCA : durSum C = durSum A := hld.trans hfd
  have hlen : S + (t2 - t1 + 1) ≤ C.length := by omega
  obtain ⟨r, hr⟩ : ∃ r, t2 - t1 + 1 = 2 * r := ⟨(t2 - t1 + 1) / 2, by omega⟩
  have hdec := durSum_decompose C S (t2 - t1 + 1)
  have hslice := @durSum_slice C S (t2 - t1 + 1) hlen
  have hmap1 : (List.range (t2 - t1 + 1)).map
        (fun k => expandedDuration (nthI C (S + k))) =
      (List.range (t2 - t1 + 1)).map (fun k => (nthI C (S + k)).duration) := by
    apply List.map_congr_left
    intro k hk
    rw [List.mem_range] at hk
    exact steady_expanded hlst (by omega) (by omega)
  have hblock : durSum ((C.drop S).take (t2 - t1 + 1)) =
      (r : ℚ) * ((nthI C S).duration + (nthI C (S + 1)).duration) := by
    rw [hslice, hmap1, hr, sum_range_pairs]
    have hterm : (List.range r).map
          (fun k => (nthI C (S + 2 * k)).duration + (nthI C (S + (2 * k + 1))).duration) =
        (List.range r).map
          (fun _ => (nthI C S).duration + (nthI C (S + 1)).duration) := by
      apply List.map_congr_left
      intro k hk
      rw [List.mem_range] at hk
      have e1 : S + (2 * k + 1) = S + 2 * k + 1 := by omega
      rw [e1, uniformOn_even hlu k (by omega), uniformOn_odd hlu k (by omega)]
    rw [hterm, sum_range_const]
  have hou : expandedDuration (createOverUnder C S E) =
      (r : ℚ) * ((nthI C S).duration + (nthI C (S + 1)).duration) := by
    rw [expandedDuration_createOverUnder]
    have : (E - S + 1) / 2 = r := by omega
    rw [this]
  rw [durSum_spliceRepl, hou]
  rw [hdec, hblock] at hCA
  linarith [hCA]

theorem runAccShape_runShape {A : List ZwiftInterval} {s e : ℕ}
    (h : runAccShape A s e) : runShape A s e :=
  fun i h1 h2 => (h i h1 h2).imp id Or.inl


theorem scanInv_mk {A : List ZwiftInterval} {j s : ℕ} (hs : s ≤ j)
    (hj : j < A.length) (hst : steadyOn A s j) (hacc : runAccShape A s j) :
    scanInv A (j + 1) (some s) := by
  simp only [scanInv, Nat.add_sub_cancel]
  exact ⟨by omega, by omega, hst, hacc⟩

theorem ouFinish_props {A : List ZwiftInterval} {s stop : ℕ}
    (hstop : stop < A.length)
    (hst : steadyOn A s stop) (hsh : runShape A s stop) :
    durSum (ouFinish A s stop).1 = durSum A ∧
    (ouFinish A s stop).1.length ≤ A.length ∧
    (A ≠ [] → (ouFinish A s stop).1 ≠ []) ∧
    (ouFinish A s stop).2.2 = none := by
  by_cases h4 : 4 ≤ stop - s + 1
  · have hse : s + 3 ≤ stop := by omega
    have h1 := replace_durSum hse hstop hst hsh
    have h2 := replace_facts hse hstop
    simp only [ouFinish, if_pos h4]
    refine ⟨h1, ?_, fun _ => h2.2.1, trivial⟩
    have := h2.1
    omega
  · simp only [ouFinish, if_neg h4]
    exact ⟨trivial, le_refl _, fun h => h, trivial⟩

theorem ouScanStep_props (options : Options) (A : List ZwiftInterval)
    (index : ℕ) (start : Option ℕ) (hidx : index ≤ A.length)
    (hinv : scanInv A index start) :
    durSum (ouScanStep options A index start).1 = durSum A ∧
    (ouScanStep options A index start).1.length ≤ A.length ∧
    (A ≠ [] → (ouScanStep options A index start).1 ≠ []) ∧
    scanInv (ouScanStep options A index start).1
      ((ouScanStep options A index start).2.1 + 1)
      (ouScanStep options A index start).2.2 := by
  by_cases hsteady : (nthI A index).type = STEADY_STATE
  · have hlt : index < A.length := nthI_lt_length hsteady
    cases start with
    | none =>
      simp only [ouScanStep, if_pos hsteady]
      refine ⟨trivial, le_refl _, fun h => h, ?_⟩
      exact scanInv_mk (le_refl index) hlt
        (fun i h1 h2 => by
          have hi : i = index := by omega
          rw [hi]; exact hsteady)
        (fun i h1 h2 => (by omega : False).elim)
    | some s =>
      obtain ⟨hs1, hs2, hsst, hsacc⟩ := hinv
      have hext_st : steadyOn A s index := by
        intro i h1 h2
        rcases Nat.lt_or_ge i index with h | h
        · exact hsst i h1 (by omega)
        · have hi : i = index := by omega
          rw [hi]; exact hsteady
      by_cases hc1 : s + 1 = index
      · simp only [ouScanStep, if_pos hsteady, if_pos hc1]
        refine ⟨trivial, le_refl _, fun h => h, ?_⟩
        refine scanInv_mk (by omega) hlt hext_st ?_
        intro i h1 h2
        rcases Nat.lt_or_ge i index with h | h
        · exact hsacc i h1 (by omega)
        · exact (by omega : False).elim
      · by_cases hcm : closeMatch options A index (index - 2) = true
        · by_cases hdeq : (nthI A index).duration = (nthI A (index - 2)).duration
          · simp only [ouScanStep, if_pos hsteady, if_neg hc1, if_pos hcm,
              if_pos hdeq]
            refine ⟨trivial, le_refl _, fun h => h, ?_⟩
            refine scanInv_mk (by omega) hlt hext_st ?_
            intro i h1 h2
            rcases Nat.lt_or_ge i index with h | h
            · exact hsacc i h1 (by omega)
            · have hi : i = index := by omega
              rw [hi]; exact Or.inl hdeq
          · by_cases hfs : s + 2 = index ∧
                (nthI A (index - 2)).duration ≥ (nthI A index).duration + 10
            · simp only [ouScanStep, if_pos hsteady, if_neg hc1, if_pos hcm,
                if_neg hdeq, if_pos hfs]
              refine ⟨trivial, le_refl _, fun h => h, ?_⟩
              refine scanInv_mk (by omega) hlt hext_st ?_
              intro i h1 h2
              rcases Nat.lt_or_ge i index with h | h
              · exact hsacc i h1 (by omega)
              · right; omega
            · by_cases hes : (nthI A index).duration ≥
                  (nthI A (index - 2)).duration + 10
              · simp only [ouScanStep, if_pos hsteady, if_neg hc1, if_pos hcm,
                  if_neg hdeq, if_neg hfs, if_pos hes]
                have hsh : runShape A s index := by
                  intro i h1 h2
                  rcases Nat.lt_or_ge i index with h | h
                  · exact ((hsacc i h1 (by omega)).imp id Or.inl)
                  · right; right; omega
                have hp := ouFinish_props hlt hext_st hsh
                exact ⟨hp.1, hp.2.1, hp.2.2.1, by rw [hp.2.2.2]; trivial⟩
              · simp only [ouScanStep, if_pos hsteady, if_neg hc1, if_pos hcm,
                  if_neg hdeq, if_neg hfs, if_neg hes]
                have hp := ouFinish_props (s := s)
                  (by omega : index - 1 < A.length) hsst
                  (runAccShape_runShape hsacc)
                exact ⟨hp.1, hp.2.1, hp.2.2.1, by rw [hp.2.2.2]; trivial⟩
        · simp only [ouScanStep, if_pos hsteady, if_neg hc1, if_neg hcm]
          have hp := ouFinish_props (s := s) (by omega : index - 1 < A.length)
            hsst (runAccShape_runShape hsacc)
          exact ⟨hp.1, hp.2.1, hp.2.2.1, by rw [hp.2.2.2]; trivial⟩
  · cases start with
    | none =>
      simp only [ouScanStep, if_neg hsteady]
      exact ⟨trivial, le_refl _, fun h => h, trivial⟩
    | some s =>
      obtain ⟨hs1, hs2, hsst, hsacc⟩ := hinv
      simp only [ouScanStep, if_neg hsteady]
      have hp := ouFinish_props (s := s) (by omega : index - 1 < A.length)
        hsst (runAccShape_runShape hsacc)
      exact ⟨hp.1, hp.2.1, hp.2.2.1, by rw [hp.2.2.2]; trivial⟩

theorem convertLoop_props (options : Options) :
    ∀ (fuel : ℕ) (A : List ZwiftInterval) (index : ℕ) (start : Option ℕ),
      scanInv A index start →
      durSum (convertLoop options fuel A index start) = durSum A ∧
      (convertLoop options fuel A index start).length ≤ A.length ∧
      (A ≠ [] → convertLoop options fuel A index start ≠ []) := by
  intro fuel
  induction fuel with
  | zero => exact fun A index start _ => ⟨rfl, le_refl _, fun h => h⟩
  | succ n ih =>
    intro A index start hinv
    simp only [convertLoop]
    split
    · exact ⟨rfl, le_refl _, fun h => h⟩
    · next hgt =>
      have hidx : index ≤ A.length := by omega
      obtain ⟨h1, h2, h3, h4⟩ := ouScanStep_props options A index start hidx hinv
      obtain ⟨g1, g2, g3⟩ := ih _ _ _ h4
      exact ⟨g1.trans h1, le_trans g2 h2, fun hne => g3 (h3 hne)⟩

theorem processOverUnders_props (A : List ZwiftInterval) (options : Options) :
    durSum (processOverUnders A options) = durSum A ∧
    (processOverUnders A options).length ≤ A.length ∧
    (A ≠ [] → processOverUnders A options ≠ []) := by
  unfold processOverUnders convertOverUnderSequences
  split
  · exact convertLoop_props options _ A 0 none trivial
  · exact ⟨rfl, le_refl _, fun h => h⟩

theorem closingIdxs_cons {data : List DataPoint} {index : ℕ}
    (h : index < data.length) :
    closingIdxs data index =
      if closesAt data index then index :: closingIdxs data (index + 1)
      else closingIdxs data (index + 1) := by
  unfold closingIdxs
  obtain ⟨k, hk⟩ : ∃ k, data.length - index = k + 1 :=
    ⟨data.length - index - 1, by omega⟩
  have h2 : data.length - (index + 1) = k := by omega
  rw [hk, List.range'_succ, List.filter_cons, h2]

theorem closingIdxs_stop {data : List DataPoint} {index : ℕ}
    (h : data.length ≤ index) : closingIdxs data index = [] := by
  unfold closingIdxs
  have : data.length - index = 0 := by omega
  rw [this]
  rfl

theorem segLoop_eq_chain (data : List DataPoint) (options : Options) :
    ∀ (fuel index start : ℕ), data.length ≤ fuel + index →
      segLoop data options fuel index start =
        chain data options start (closingIdxs data index) := by
  intro fuel
  induction fuel with
  | zero =>
    intro index start h
    rw [closingIdxs_stop (by omega)]
    rfl
  | succ n ih =>
    intro index start h
    simp only [segLoop]
    split
    · next hlt =>
      rw [closingIdxs_cons hlt]
      by_cases hcl : closesAt data index = true
      · rw [if_pos hcl, if_pos hcl, ih (index + 1) index (by omega)]
        rfl
      · rw [if_neg hcl, if_neg hcl, ih (index + 1) start (by omega)]
    · next hge =>
      rw [closingIdxs_stop (by omega)]
      rfl

theorem getSimpleIntervals_eq_chain (data : List DataPoint) (options : Options) :
    getSimpleIntervals data options =
      chain data options 0 (closingIdxs data 1) :=
  segLoop_eq_chain data options data.length 1 0 (by omega)

theorem closeInterval_duration (data : List DataPoint) (options : Options)
    (start index : ℕ) :
    (closeInterval data options start index).duration =
      (nthD data index).Seconds / 1000 - (nthD data start).Seconds / 1000 := rfl

theorem closeInterval_type_not_ou (data : List DataPoint) (options : Options)
    (start index : ℕ) :
    (closeInterval data options start index).type ≠ OVER_UNDER := by
  simp only [closeInterval]
  split
  · simp
  · split <;> simp

theorem expandedDuration_closeInterval (data : List DataPoint)
    (options : Options) (start index : ℕ) :
    expandedDuration (closeInterval data options start index) =
      (nthD data index).Seconds / 1000 - (nthD data start).Seconds / 1000 := by
  rw [expandedDuration_keep_type _ (closeInterval_type_not_ou data options start index),
    closeInterval_duration]

theorem chain_durSum (data : List DataPoint) (options : Options) :
    ∀ (is : List ℕ) (s last : ℕ), is.getLast? = some last →
      durSum (chain data options s is) =
        (nthD data last).Seconds / 1000 - (nthD data s).Seconds / 1000 := by
  intro is
  induction is with
  | nil => intro s last h; simp at h
  | cons i rest ih =>
    intro s last h
    cases rest with
    | nil =>
      simp only [List.getLast?_singleton, Option.some.injEq] at h
      rw [← h]
      simp only [chain, durSum_cons, durSum_nil,
        expandedDuration_closeInterval]
      ring
    | cons j rest2 =>
      rw [List.getLast?_cons_cons] at h
      have hih := ih i last h
      simp only [chain, durSum_cons] at hih ⊢
      rw [hih, expandedDuration_closeInterval]
      ring

theorem closingIdxs_terminal (data : List DataPoint) (h2 : 2 ≤ data.length) :
    ∀ (d index : ℕ), index + d = data.length - 1 → 1 ≤ index →
      (closingIdxs data index).getLast? = some (data.length - 1) := by
  intro d
  induction d with
  | zero =>
    intro index hd h1
    rw [closingIdxs_cons (by omega)]
    have hcl : closesAt data index = true := by
      simp only [closesAt, Bool.or_eq_true, beq_iff_eq]
      left; omega
    rw [if_pos hcl, closingIdxs_stop (by omega)]
    have hi : index = data.length - 1 := by omega
    rw [hi]
    rfl
  | succ m ih =>
    intro index hd h1
    rw [closingIdxs_cons (by omega)]
    have hih := ih (index + 1) (by omega) (by omega)
    have hne : closingIdxs data (index + 1) ≠ [] := by
      intro hc
      rw [hc] at hih
      simp at hih
    split
    · obtain ⟨y, ys, hys⟩ := List.exists_cons_of_ne_nil hne
      rw [hys]
      rw [hys] at hih
      rw [List.getLast?_cons_cons]
      exact hih
    · exact hih

theorem valid_length {data : List DataPoint}
    (h : validWorkoutData data = true) : 2 ≤ data.length := by
  unfold validWorkoutData at h
  split at h
  · exact absurd h (by simp)
  · omega

theorem getSimpleIntervals_durSum (data : List DataPoint) (options : Options)
    (h2 : 2 ≤ data.length) :
    durSum (getSimpleIntervals data options) =
      (nthD data (data.length - 1)).Seconds / 1000 -
        (nthD data 0).Seconds / 1000 := by
  rw [getSimpleIntervals_eq_chain]
  exact chain_durSum data options _ 0 (data.length - 1)
    (closingIdxs_terminal data h2 (data.length - 2) 1 (by omega) (by omega))

theorem slopeChange_iff {data : List DataPoint} {i : ℕ} :
    slopeChange data i = true ↔ slopeChangeAt data i := by
  unfold slopeChange slopeChangeAt
  split
  · next h =>
    rw [decide_eq_true_iff]
    exact ⟨fun hd => ⟨h, by rwa [abs_sub_comm]⟩,
      fun hd => by rw [abs_sub_comm]; exact hd.2⟩
  · next h =>
    simp only [Bool.false_eq_true, false_iff]
    intro hc
    exact h hc.1

theorem chain_eq_pairs (data : List DataPoint) (options : Options) :
    ∀ (is : List ℕ) (s : ℕ),
      chain data options s is =
        ((s :: is).zip is).map
          (fun p => closeInterval data options p.1 p.2) := by
  intro is
  induction is with
  | nil => intro s; rfl
  | cons i rest ih =>
    intro s
    simp only [chain, List.zip_cons_cons, List.map_cons]
    rw [ih i]

theorem doRamp_none {options : Options} (h : options.rampConversion = "none")
    (n i : ℕ) : doRampConversion options n i = false := by
  unfold doRampConversion
  rw [h]
  rfl

theorem closeInterval_startPower_noconv {data : List DataPoint}
    {options : Options} {a b : ℕ}
    (h : doRampConversion options data.length b = false) :
    (closeInterval data options a b).startPower =
      (nthD data a).FtpPercent := by
  simp [closeInterval, h]

theorem closeInterval_endPower_noconv {data : List DataPoint}
    {options : Options} {a b : ℕ}
    (h : doRampConversion options data.length b = false) :
    (closeInterval data options a b).endPower =
      jsRound ((nthD data a).FtpPercent +
        (closeInterval data options a b).duration * nslope data a) := by
  simp [closeInterval, h]

theorem closeInterval_class (data : List DataPoint) (options : Options)
    (a b : ℕ) :
    ((closeInterval data options a b).type = STEADY_STATE ↔
      (closeInterval data options a b).startPower =
        (closeInterval data options a b).endPower) ∧
    ((closeInterval data options a b).type = RAMP ↔
      (closeInterval data options a b).startPower ≠
        (closeInterval data options a b).endPower) := by
  unfold closeInterval
  simp only
  split
  · simp
  · split
    · next heq =>
      simp only at heq
      refine ⟨⟨fun _ => heq, fun _ => rfl⟩, ⟨fun h => ?_, fun h => absurd heq h⟩⟩
      simp at h
    · next hne =>
      simp only at hne
      refine ⟨⟨fun h => ?_, fun h => absurd h hne⟩, ⟨fun _ => hne, fun _ => rfl⟩⟩
      simp at h

/-- C1: for every raw sample series that passes validation, the sum of
the durations of all intervals returned by `getZwiftIntervals`, with
each over-under interval expanded as `repeat × (onDuration +
offDuration)`, equals the last sample's timestamp minus the first
sample's timestamp, converted from milliseconds to seconds. -/
theorem c1_duration_coverage (data : List DataPoint) (options : Options)
    (h : validWorkoutData data = true) :
    durSum (getZwiftIntervals data options) =
      ((nthD data (data.length - 1)).Seconds - (nthD data 0).Seconds) / 1000 := by
  unfold getZwiftIntervals
  rw [if_pos h, (processOverUnders_props _ options).1,
    getSimpleIntervals_durSum data options (valid_length h)]
  ring

/-- Witness for `c1_duration_coverage` at the round-trip sample series
with strict over-under options. -/
theorem c1_duration_coverage_witness :
    durSum (getZwiftIntervals roundTripData strictOptions) =
      ((nthD roundTripData (roundTripData.length - 1)).Seconds -
        (nthD roundTripData 0).Seconds) / 1000 :=
  c1_duration_coverage roundTripData strictOptions (by decide)

/-- C8: over-under detection never increases the number of intervals,
and a replacement of a qualifying run (length at least 4) strictly
decreases the count while leaving exactly one over-under interval at
the returned index. -/
theorem c8_monotonic_reduction :
    (∀ (A : List ZwiftInterval) (options : Options),
      (processOverUnders A options).length ≤ A.length) ∧
    (∀ (A : List ZwiftInterval) (s e : ℕ), s + 3 ≤ e → e < A.length →
      (replaceOverUnderSequence A s e).1.length < A.length ∧
      (nthI (replaceOverUnderSequence A s e).1
        (replaceOverUnderSequence A s e).2).type = OVER_UNDER) := by
  constructor
  · exact fun A options => (processOverUnders_props A options).2.1
  · intro A s e h1 h2
    have h := replace_facts h1 h2
    exact ⟨h.1, h.2.2⟩

/-- Witness for `c8_monotonic_reduction` at a concrete four-interval
over-under run. -/
theorem c8_monotonic_reduction_witness :
    (processOverUnders ouRunIntervals strictOptions).length ≤
      ouRunIntervals.length ∧
    ((replaceOverUnderSequence ouRunIntervals 0 3).1.length <
      ouRunIntervals.length ∧
    (nthI (replaceOverUnderSequence ouRunIntervals 0 3).1
      (replaceOverUnderSequence ouRunIntervals 0 3).2).type = OVER_UNDER) :=
  ⟨c8_monotonic_reduction.1 ouRunIntervals strictOptions,
   c8_monotonic_reduction.2 ouRunIntervals 0 3 (by decide) (by decide)⟩

/-- C4: for a validated series, the segmentation is the chain over the
closing indices, an interior index closes an interval exactly when a
slope change occurs there but no slope change occurs at the next index
(threshold 0.001 %FTP/s in absolute value), and the terminal sample
always closes the final interval. -/
theorem c4_boundary_characterization (data : List DataPoint)
    (h : validWorkoutData data = true) :
    (∀ options, getSimpleIntervals data options =
      chain data options 0 (closingIdxs data 1)) ∧
    (∀ i, 0 < i → i + 1 < data.length →
      (i ∈ closingIdxs data 1 ↔
        (slopeChangeAt data i ∧ ¬ slopeChangeAt data (i + 1)))) ∧
    data.length - 1 ∈ closingIdxs data 1 := by
  have h2 := valid_length h
  refine ⟨fun options => getSimpleIntervals_eq_chain data options, ?_, ?_⟩
  · intro i h0 hn
    constructor
    · intro hmem
      unfold closingIdxs at hmem
      rw [List.mem_filter] at hmem
      obtain ⟨hr, hc⟩ := hmem
      unfold closesAt at hc
      rw [Bool.or_eq_true] at hc
      rcases hc with hc | hc
      · rw [beq_iff_eq] at hc
        omega
      · rw [Bool.and_eq_true] at hc
        obtain ⟨ha, hb⟩ := hc
        refine ⟨slopeChange_iff.mp ha, ?_⟩
        intro hcontra
        rw [← slopeChange_iff] at hcontra
        rw [hcontra] at hb
        simp at hb
    · rintro ⟨ha, hb⟩
      unfold closingIdxs
      rw [List.mem_filter]
      refine ⟨by rw [List.mem_range'_1]; omega, ?_⟩
      unfold closesAt
      rw [Bool.or_eq_true, Bool.and_eq_true]
      right
      refine ⟨slopeChange_iff.mpr ha, ?_⟩
      have hf : slopeChange data (i + 1) = false := by
        cases hsc : slopeChange data (i + 1)
        · rfl
        · exact absurd (slopeChange_iff.mp hsc) hb
      rw [hf]
      rfl
  · unfold closingIdxs
    rw [List.mem_filter]
    refine ⟨by rw [List.mem_range'_1]; omega, ?_⟩
    unfold closesAt
    rw [Bool.or_eq_true]
    left
    rw [beq_iff_eq]

/-- Witness for `c4_boundary_characterization` at the round-trip sample
series, instantiated at interior index 7. -/
theorem c4_boundary_characterization_witness :
    getSimpleIntervals roundTripData strictOptions =
      chain roundTripData strictOptions 0 (closingIdxs roundTripData 1) ∧
    (7 ∈ closingIdxs roundTripData 1 ↔
      (slopeChangeAt roundTripData 7 ∧
        ¬ slopeChangeAt roundTripData (7 + 1))) ∧
    roundTripData.length - 1 ∈ closingIdxs roundTripData 1 :=
  ⟨(c4_boundary_characterization roundTripData (by decide)).1 strictOptions,
   (c4_boundary_characterization roundTripData (by decide)).2.1 7
     (by decide) (by decide),
   (c4_boundary_characterization roundTripData (by decide)).2.2⟩

/-- C5: the base segmentation emits exactly the intervals closed over
consecutive boundary pairs; without ramp conversion each such interval
starts at the power of its first sample and ends at the rounded
slope-extrapolated power; and an emitted interval is steady-state
exactly when its start and end powers agree, a ramp exactly when they
differ. -/
theorem c5_power_and_classification (data : List DataPoint)
    (options : Options) :
    getSimpleIntervals data options =
      (boundPairs data).map (fun p => closeInterval data options p.1 p.2) ∧
    (options.rampConversion = "none" → ∀ p ∈ boundPairs data,
      (closeInterval data options p.1 p.2).startPower =
        (nthD data p.1).FtpPercent ∧
      (closeInterval data options p.1 p.2).endPower =
        jsRound ((nthD data p.1).FtpPercent +
          (closeInterval data options p.1 p.2).duration * nslope data p.1)) ∧
    (∀ iv ∈ getSimpleIntervals data options,
      (iv.type = STEADY_STATE ↔ iv.startPower = iv.endPower) ∧
      (iv.type = RAMP ↔ iv.startPower ≠ iv.endPower)) := by
  refine ⟨?_, ?_, ?_⟩
  · rw [getSimpleIntervals_eq_chain, chain_eq_pairs]
    rfl
  · intro hro p hp
    have hfalse := doRamp_none hro data.length p.2
    exact ⟨closeInterval_startPower_noconv hfalse,
      closeInterval_endPower_noconv hfalse⟩
  · intro iv hiv
    rw [getSimpleIntervals_eq_chain, chain_eq_pairs] at hiv
    rw [List.mem_map] at hiv
    obtain ⟨p, _, hp⟩ := hiv
    rw [← hp]
    exact closeInterval_class data options p.1 p.2

/-- Witness for `c5_power_and_classification` at the round-trip sample
series, instantiated at the boundary pair (0, 7) and the interval it
closes. -/
theorem c5_power_and_classification_witness :
    getSimpleIntervals roundTripData strictOptions =
      (boundPairs roundTripData).map
        (fun p => closeInterval roundTripData strictOptions p.1 p.2) ∧
    ((closeInterval roundTripData strictOptions 0 7).startPower =
        (nthD roundTripData 0).FtpPercent ∧
      (closeInterval roundTripData strictOptions 0 7).endPower =
        jsRound ((nthD roundTripData 0).FtpPercent +
          (closeInterval roundTripData strictOptions 0 7).duration *
            nslope roundTripData 0)) ∧
    (((closeInterval roundTripData strictOptions 0 7).type = STEADY_STATE ↔
        (closeInterval roundTripData strictOptions 0 7).startPower =
          (closeInterval roundTripData strictOptions 0 7).endPower) ∧
      ((closeInterval roundTripData strictOptions 0 7).type = RAMP ↔
        (closeInterval roundTripData strictOptions 0 7).startPower ≠
          (closeInterval roundTripData strictOptions 0 7).endPower)) :=
  ⟨(c5_power_and_classification roundTripData strictOptions).1,
   (c5_power_and_classification roundTripData strictOptions).2.1 rfl
     (0, 7) (by decide),
   (c5_power_and_classification roundTripData strictOptions).2.2
     (closeInterval roundTripData strictOptions 0 7) (by decide)⟩

/-- C2 counterexample: on the round-trip scenario's sample series
(timestamps 0, 59, 60, ..., 240 seconds, encoded as the raw millisecond
payload), strict conversion with ramp conversion off produces no
over-under interval at all (the claim expects exactly one with repeat
2), because every interior sample of this coarse series is a slope
change, deferring the first boundary to index 7. -/
theorem c2_round_trip_counterexample :
    ((getZwiftIntervals roundTripData strictOptions).map
      (fun iv => iv.type)).count OVER_UNDER = 0 ∧
    (getZwiftIntervals roundTripData strictOptions).length = 2 := by
  constructor
  · decide
  · decide

/-- C2 amended: on the round-trip scenario's sample series, strict
conversion with ramp conversion off yields a 239-second steady-state
interval at 80 %FTP followed by a one-second ramp from 100 to 0 %FTP. -/
theorem c2_round_trip_amended :
    getZwiftIntervals roundTripData strictOptions =
      [{ type := STEADY_STATE, duration := 239, startPower := 80,
         endPower := 80 },
       { type := RAMP, duration := 1, startPower := 100, endPower := 0 }] := by
  decide

/-- C6: with `rampConversion` "internal", the warmup ramp (the first
interval) of `warmupRampData` is converted to a steady-state interval at
the midpoint power 85, contradicting the documented behaviour that
"internal" preserves warmup ramps: the exemption test compares the
closing sample index (always positive) instead of the interval's
position, so only the interval ending at the terminal sample is
exempt.  The second conjunct shows that without conversion the first
interval is indeed a ramp from 80 to 90. -/
theorem c6_internal_converts_warmup_ramp :
    getZwiftIntervals warmupRampData internalOptions =
      [{ type := STEADY_STATE, duration := 10, startPower := 85,
         endPower := 85 },
       { type := STEADY_STATE, duration := 10, startPower := 90,
         endPower := 90 }] ∧
    getZwiftIntervals warmupRampData
        { rampConversion := "none", ouConversion := "none" } =
      [{ type := RAMP, duration := 10, startPower := 80, endPower := 90 },
       { type := STEADY_STATE, duration := 10, startPower := 90,
         endPower := 90 }] := by
  constructor
  · decide
  · decide

/-- C7 counterexample: converting the ramp of `midpointRampData` (80 to
91 over 10 s) under `rampConversion` "all" sets both endpoints to the
exact midpoint 171/2 = 85.5, which is not the rounded midpoint 86 the
claim asserts. -/
theorem c7_midpoint_counterexample :
    getZwiftIntervals midpointRampData allRampOptions =
      [{ type := STEADY_STATE, duration := 10, startPower := 171/2,
         endPower := 171/2 }] ∧
    (171/2 : ℚ) ≠ jsRound ((80 + 91) / 2) := by
  constructor
  · decide
  · decide

/-- C7 amended: whenever the ramp policy converts a closed interval,
both power endpoints are set to the exact (unrounded) midpoint of the
interval's start power and rounded end power, and the interval is
classified steady-state. -/
theorem c7_midpoint_amended (data : List DataPoint) (options : Options)
    (a b : ℕ) (h : doRampConversion options data.length b = true) :
    (closeInterval data options a b).startPower =
      ((nthD data a).FtpPercent +
        jsRound ((nthD data a).FtpPercent +
          (closeInterval data options a b).duration * nslope data a)) / 2 ∧
    (closeInterval data options a b).endPower =
      (closeInterval data options a b).startPower ∧
    (closeInterval data options a b).type = STEADY_STATE := by
  simp [closeInterval, h]

/-- Witness for `c7_midpoint_amended` at the converted ramp of
`midpointRampData`. -/
theorem c7_midpoint_amended_witness :
    (closeInterval midpointRampData allRampOptions 0 1).startPower =
      ((nthD midpointRampData 0).FtpPercent +
        jsRound ((nthD midpointRampData 0).FtpPercent +
          (closeInterval midpointRampData allRampOptions 0 1).duration *
            nslope midpointRampData 0)) / 2 ∧
    (closeInterval midpointRampData allRampOptions 0 1).endPower =
      (closeInterval midpointRampData allRampOptions 0 1).startPower ∧
    (closeInterval midpointRampData allRampOptions 0 1).type =
      STEADY_STATE :=
  c7_midpoint_amended midpointRampData allRampOptions 0 1 (by decide)

theorem msAligned_iff {q : ℚ} : msAligned q = true ↔ ∃ k : ℤ, q = 1000 * k := by
  unfold msAligned
  rw [beq_iff_eq]
  constructor
  · intro h
    refine ⟨(q / 1000).num, ?_⟩
    have h2 : ((q / 1000).num : ℚ) = q / 1000 := (Rat.den_eq_one_iff _).mp h
    rw [h2]
    field_simp
  · rintro ⟨k, rfl⟩
    have h2 : (1000 * (k : ℚ)) / 1000 = (k : ℚ) := by
      field_simp
    rw [h2]
    exact Rat.den_intCast k

theorem invalidDataPoint_false_iff (data : List DataPoint) (i : ℕ) :
    invalidDataPoint data i = false ↔
      (0 ≤ (nthD data i).Seconds ∧ 0 ≤ (nthD data i).FtpPercent ∧
       msAligned (nthD data i).Seconds = true ∧
       (0 < i → (nthD data (i - 1)).Seconds < (nthD data i).Seconds)) := by
  unfold invalidDataPoint
  simp only [Bool.or_eq_false_iff, Bool.and_eq_false_iff,
    decide_eq_false_iff_not, Bool.not_eq_false', not_lt, not_le]
  constructor
  · rintro ⟨⟨⟨h1, h2⟩, h3⟩, h4⟩
    refine ⟨h1, h2, h3, ?_⟩
    intro hi
    rcases h4 with h4 | h4
    · omega
    · exact h4
  · rintro ⟨h1, h2, h3, h4⟩
    refine ⟨⟨⟨h1, h2⟩, h3⟩, ?_⟩
    by_cases hi : 0 < i
    · exact Or.inr (h4 hi)
    · exact Or.inl (by omega)

theorem validWorkoutData_iff (data : List DataPoint) :
    validWorkoutData data = true ↔
      (2 ≤ data.length ∧
       (∀ i < data.length, 0 ≤ (nthD data i).Seconds ∧
          0 ≤ (nthD data i).FtpPercent ∧
          (∃ k : ℤ, (nthD data i).Seconds = 1000 * k)) ∧
       (∀ i, i + 1 < data.length →
          (nthD data i).Seconds < (nthD data (i + 1)).Seconds)) := by
  unfold validWorkoutData
  split
  · next hlen =>
    simp only [Bool.false_eq_true, false_iff]
    rintro ⟨h2, _, _⟩
    omega
  · next hlen =>
    rw [Bool.not_eq_true', List.any_eq_false]
    constructor
    · intro h
      have hpt : ∀ i < data.length,
          (0 ≤ (nthD data i).Seconds ∧ 0 ≤ (nthD data i).FtpPercent ∧
           msAligned (nthD data i).Seconds = true ∧
           (0 < i → (nthD data (i - 1)).Seconds < (nthD data i).Seconds)) := by
        intro i hi
        have := h i (List.mem_range.mpr hi)
        rw [Bool.not_eq_true] at this
        exact (invalidDataPoint_false_iff data i).mp this
      refine ⟨by omega, ?_, ?_⟩
      · intro i hi
        obtain ⟨a, b, c, _⟩ := hpt i hi
        exact ⟨a, b, msAligned_iff.mp c⟩
      · intro i hi
        obtain ⟨_, _, _, d⟩ := hpt (i + 1) (by omega)
        have := d (by omega)
        simpa using this
    · rintro ⟨h2, hpt, hinc⟩
      intro i hi
      rw [List.mem_range] at hi
      rw [Bool.not_eq_true]
      rw [invalidDataPoint_false_iff]
      obtain ⟨a, b, c⟩ := hpt i hi
      refine ⟨a, b, msAligned_iff.mpr c, ?_⟩
      intro h0
      have := hinc (i - 1) (by omega)
      have he : i - 1 + 1 = i := by omega
      rwa [he] at this

theorem getZwiftIntervals_invalid (data : List DataPoint) (options : Options)
    (h : validWorkoutData data = false) :
    getZwiftIntervals data options = [] := by
  unfold getZwiftIntervals
  rw [h]
  rfl

theorem getZwiftIntervals_valid_ne_nil (data : List DataPoint)
    (options : Options) (h : validWorkoutData data = true) :
    getZwiftIntervals data options ≠ [] := by
  unfold getZwiftIntervals
  rw [if_pos h]
  refine (processOverUnders_props _ options).2.2 ?_
  rw [getSimpleIntervals_eq_chain]
  have hterm := closingIdxs_terminal data (valid_length h)
    (data.length - 2) 1 (by have := valid_length h; omega) (by omega)
  intro hc
  cases hcl : closingIdxs data 1 with
  | nil => rw [hcl] at hterm; simp at hterm
  | cons x xs => rw [hcl] at hc; exact absurd hc (by simp [chain])

/-- Decomposition of the serialized document into the source template's
segments, with the interpolated expressions abstracted. -/
theorem generateZwiftWorkout_split (φ : Option String → String)
    (w : Workout) (options : Options) :
    (generateZwiftWorkout φ w options).content =
      "<workout_file>\n" ++ "\t<author>TrainerRoad</author>\n" ++
      "\t<name>" ++ workoutName w ++ "</name>\n" ++
      "\t<description>" ++ "<![CDATA[" ++
      (φ (w.Details.bind fun d => d.WorkoutDescription) ++ "\n") ++ "\n" ++
      (φ (w.Details.bind fun d => d.GoalDescription) ++ "\n") ++ "]]>" ++
      "</description>\n" ++ "\t<sportType>bike</sportType>\n" ++
      "\t<tags>\n" ++ workoutTags w ++ "\n" ++ "\t</tags>\n" ++
      "\t<workout>\n" ++
      String.intercalate "\n"
        ((getZwiftIntervals w.WorkoutData options).map intervalToString) ++
      "\n" ++ "\t</workout>\n" ++ "</workout_file>\n" ∧
    (generateZwiftWorkout φ w options).filename = workoutName w ++ ".zwo" := by
  constructor
  · simp only [generateZwiftWorkout, workoutName, workoutTags]
  · simp only [generateZwiftWorkout, workoutName, workoutTags]

/-- C3: counterexample to "on malformed input the core declines to
produce an output document at all".  `badDataWorkout` has a single data
point, so validation fails and the interval list is empty, yet
`generateZwiftWorkout` still returns a complete document (with an empty
workout section) and a filename, rather than declining. -/
theorem c3_validation_counterexample :
    validWorkoutData badDataWorkout.WorkoutData = false ∧
    generateZwiftWorkout noHtml badDataWorkout strictOptions =
      { filename := "W.zwo",
        content := "<workout_file>\n\t<author>TrainerRoad</author>\n\t<name>W</name>\n\t<description><![CDATA[\n\n\n]]></description>\n\t<sportType>bike</sportType>\n\t<tags>\n\n\t</tags>\n\t<workout>\n\n\t</workout>\n</workout_file>\n" } := by
  constructor
  · rfl
  · rfl

/-- C3 (amended): validation fails exactly on malformed series (fewer
than 2 samples, a timestamp that is negative or not millisecond-aligned
to a whole second, a negative power, or timestamps not strictly
increasing); on malformed input the conversion core returns an empty
interval sequence and the serializer emits a document whose workout
section is empty (rather than declining to produce output); every
well-formed series yields a non-empty interval sequence. -/
theorem c3_validation_amended (φ : Option String → String) (w : Workout)
    (options : Options) :
    (validWorkoutData w.WorkoutData = true ↔
      (2 ≤ w.WorkoutData.length ∧
       (∀ i < w.WorkoutData.length,
          0 ≤ (nthD w.WorkoutData i).Seconds ∧
          0 ≤ (nthD w.WorkoutData i).FtpPercent ∧
          (∃ k : ℤ, (nthD w.WorkoutData i).Seconds = 1000 * k)) ∧
       (∀ i, i + 1 < w.WorkoutData.length →
          (nthD w.WorkoutData i).Seconds <
            (nthD w.WorkoutData (i + 1)).Seconds))) ∧
    (validWorkoutData w.WorkoutData = false →
      getZwiftIntervals w.WorkoutData options = [] ∧
      ∃ pre post, (generateZwiftWorkout φ w options).content =
        pre ++ "\t<workout>\n\n\t</workout>\n" ++ post) ∧
    (validWorkoutData w.WorkoutData = true →
      getZwiftIntervals w.WorkoutData options ≠ []) := by
  refine ⟨validWorkoutData_iff _, ?_, getZwiftIntervals_valid_ne_nil _ _⟩
  intro hbad
  refine ⟨getZwiftIntervals_invalid _ _ hbad,
    "<workout_file>\n" ++ "\t<author>TrainerRoad</author>\n" ++
      "\t<name>" ++ workoutName w ++ "</name>\n" ++
      "\t<description>" ++ "<![CDATA[" ++
      (φ (w.Details.bind fun d => d.WorkoutDescription) ++ "\n") ++ "\n" ++
      (φ (w.Details.bind fun d => d.GoalDescription) ++ "\n") ++ "]]>" ++
      "</description>\n" ++ "\t<sportType>bike</sportType>\n" ++
      "\t<tags>\n" ++ workoutTags w ++ "\n" ++ "\t</tags>\n",
    "</workout_file>\n", ?_⟩
  rw [(generateZwiftWorkout_split φ w options).1,
    getZwiftIntervals_invalid _ _ hbad]
  have hnil : String.intercalate "\n"
      (([] : List ZwiftInterval).map intervalToString) = "" := rfl
  rw [hnil]
  simp only [String.append_assoc]
  rw [show ("\t<workout>\n" : String) ++ ("" ++ ("\n" ++ ("\t</workout>\n" ++
      "</workout_file>\n"))) =
    "\t<workout>\n\n\t</workout>\n" ++ "</workout_file>\n" from rfl]

/-- Witness for C3 (amended) at the malformed workout
`badDataWorkout`. -/
theorem c3_validation_amended_witness :
    getZwiftIntervals badDataWorkout.WorkoutData strictOptions = [] ∧
    ∃ pre post,
      (generateZwiftWorkout noHtml badDataWorkout strictOptions).content =
        pre ++ "\t<workout>\n\n\t</workout>\n" ++ post :=
  (c3_validation_amended noHtml badDataWorkout strictOptions).2.1 (by decide)

/-- C9: counterexample to "every zone without a display name ...
contributes nothing (not even an empty line) to the output".  The zones
are joined with `"\n".intercalate`, so a zone whose `zoneToTag` is empty
still contributes a separator: with one named zone followed by one
nameless zone the tags block of the document contains a blank line
between the tag and `</tags>`. -/
theorem c9_zone_tags_counterexample :
    String.intercalate "\n"
        (([⟨some "Sweet Spot"⟩, ⟨none⟩] : List Zone).map zoneToTag) =
      "\t\t<tag name=\"Sweet Spot\"/>\n" ∧
    String.intercalate "\n"
        (([⟨some "Sweet Spot"⟩] : List Zone).map zoneToTag) =
      "\t\t<tag name=\"Sweet Spot\"/>" ∧
    (generateZwiftWorkout noHtml zonesWorkout strictOptions).content =
      "<workout_file>\n\t<author>TrainerRoad</author>\n\t<name>Z</name>\n\t<description><![CDATA[\n\n\n]]></description>\n\t<sportType>bike</sportType>\n\t<tags>\n\t\t<tag name=\"Sweet Spot\"/>\n\n\t</tags>\n\t<workout>\n\n\t</workout>\n</workout_file>\n" := by
  refine ⟨rfl, rfl, rfl⟩

/-- C9 (amended): a zone without a display name (or with an empty one)
maps to the empty tag string, a zone with a non-empty display name maps
to exactly one tag entry, and the document's tags section interpolates
the newline-join of the per-zone tag strings (so empty tag strings still
contribute separator newlines). -/
theorem c9_zone_tags_amended (φ : Option String → String) (w : Workout)
    (options : Options) (d : WorkoutDetails) (zs : List Zone)
    (hd : w.Details = some d) (hz : d.Zones = some zs) :
    (∀ z : Zone, (z.Description = none ∨ z.Description = some "") →
      zoneToTag z = "") ∧
    (∀ z : Zone, ∀ s : String, z.Description = some s → s ≠ "" →
      zoneToTag z = "\t\t<tag name=\"" ++ s ++ "\"/>") ∧
    ∃ pre post, (generateZwiftWorkout φ w options).content =
      pre ++ "\t<tags>\n" ++
        String.intercalate "\n" (zs.map zoneToTag) ++
        "\n\t</tags>\n" ++ post := by
  refine ⟨?_, ?_, ?_⟩
  · rintro z (h | h) <;> simp [zoneToTag, h]
  · intro z s h hs
    simp [zoneToTag, h, hs]
  · have ht : workoutTags w = String.intercalate "\n" (zs.map zoneToTag) := by
      simp [workoutTags, hd, hz]
    refine ⟨"<workout_file>\n" ++ "\t<author>TrainerRoad</author>\n" ++
      "\t<name>" ++ workoutName w ++ "</name>\n" ++
      "\t<description>" ++ "<![CDATA[" ++
      (φ (w.Details.bind fun x => x.WorkoutDescription) ++ "\n") ++ "\n" ++
      (φ (w.Details.bind fun x => x.GoalDescription) ++ "\n") ++ "]]>" ++
      "</description>\n" ++ "\t<sportType>bike</sportType>\n",
      "\t<workout>\n" ++
      String.intercalate "\n"
        ((getZwiftIntervals w.WorkoutData options).map intervalToString) ++
      "\n" ++ "\t</workout>\n" ++ "</workout_file>\n", ?_⟩
    rw [(generateZwiftWorkout_split φ w options).1, ht]
    simp only [String.append_assoc]
    rw [show ∀ x y : String, ("\t<tags>\n" : String) ++ (x ++ ("\n" ++
        ("\t</tags>\n" ++ y))) =
      "\t<tags>\n" ++ (x ++ ("\n\t</tags>\n" ++ y)) from
        fun x y => by
          rw [← String.append_assoc "\n" "\t</tags>\n" y,
            show ("\n" : String) ++ "\t</tags>\n" = "\n\t</tags>\n" from rfl]]

/-- Witness for C9 (amended) at `zonesWorkout`. -/
theorem c9_zone_tags_amended_witness :
    ∃ pre post,
      (generateZwiftWorkout noHtml zonesWorkout strictOptions).content =
        pre ++ "\t<tags>\n" ++
          String.intercalate "\n"
            (([⟨some "Sweet Spot"⟩, ⟨none⟩] : List Zone).map zoneToTag) ++
          "\n\t</tags>\n" ++ post :=
  (c9_zone_tags_amended noHtml zonesWorkout strictOptions
    { WorkoutName := some "Z", WorkoutDescription := none,
      GoalDescription := none,
      Zones := some [⟨some "Sweet Spot"⟩, ⟨none⟩] }
    [⟨some "Sweet Spot"⟩, ⟨none⟩] rfl rfl).2.2

/-- C10: when the workout's name field is missing or trims (trailing
whitespace removed) to the empty string, `generateZwiftWorkout` uses the
fallback "Unnamed Workout" for both the `<name>` element and the base of
the filename; otherwise the trimmed name is used verbatim for both. -/
theorem c10_name_fallback (φ : Option String → String) (w : Workout)
    (options : Options) :
    ((w.Details.bind (fun d => d.WorkoutName) = none ∨
      (∃ s, w.Details.bind (fun d => d.WorkoutName) = some s ∧
        jsTrimEnd s = "")) →
      (generateZwiftWorkout φ w options).filename = "Unnamed Workout.zwo" ∧
      ∃ post, (generateZwiftWorkout φ w options).content =
        "<workout_file>\n\t<author>TrainerRoad</author>\n\t<name>Unnamed Workout</name>\n"
          ++ post) ∧
    (∀ s : String, w.Details.bind (fun d => d.WorkoutName) = some s →
      jsTrimEnd s ≠ "" →
      (generateZwiftWorkout φ w options).filename = jsTrimEnd s ++ ".zwo" ∧
      ∃ post, (generateZwiftWorkout φ w options).content =
        "<workout_file>\n\t<author>TrainerRoad</author>\n\t<name>" ++
          jsTrimEnd s ++ "</name>\n" ++ post) := by
  have hrest : ∀ nm : String, workoutName w = nm →
      (generateZwiftWorkout φ w options).filename = nm ++ ".zwo" ∧
      ∃ post, (generateZwiftWorkout φ w options).content =
        ("<workout_file>\n" ++ "\t<author>TrainerRoad</author>\n" ++
          "\t<name>" ++ nm ++ "</name>\n") ++ post := by
    intro nm hn
    refine ⟨by rw [(generateZwiftWorkout_split φ w options).2, hn], ?_⟩
    refine ⟨"\t<description>" ++ "<![CDATA[" ++
      (φ (w.Details.bind fun x => x.WorkoutDescription) ++ "\n") ++ "\n" ++
      (φ (w.Details.bind fun x => x.GoalDescription) ++ "\n") ++ "]]>" ++
      "</description>\n" ++ "\t<sportType>bike</sportType>\n" ++
      "\t<tags>\n" ++ workoutTags w ++ "\n" ++ "\t</tags>\n" ++
      "\t<workout>\n" ++
      String.intercalate "\n"
        ((getZwiftIntervals w.WorkoutData options).map intervalToString) ++
      "\n" ++ "\t</workout>\n" ++ "</workout_file>\n", ?_⟩
    rw [(generateZwiftWorkout_split φ w options).1, hn]
    simp only [String.append_assoc]
  constructor
  · intro hmiss
    have hn : workoutName w = "Unnamed Workout" := by
      rcases hmiss with h | ⟨s, h, hs⟩
      · simp [workoutName, h]
      · simp [workoutName, h, hs]
    obtain ⟨h1, post, h2⟩ := hrest _ hn
    refine ⟨by rw [h1]; rfl, ⟨post, ?_⟩⟩
    rw [h2]
    simp only [String.append_assoc]
    rw [show ("<workout_file>\n" : String) ++ ("\t<author>TrainerRoad</author>\n" ++
        ("\t<name>" ++ ("Unnamed Workout" ++ ("</name>\n" ++ post)))) =
      "<workout_file>\n\t<author>TrainerRoad</author>\n\t<name>Unnamed Workout</name>\n"
        ++ post from by
      rw [show ("<workout_file>\n\t<author>TrainerRoad</author>\n\t<name>Unnamed Workout</name>\n" : String) =
        "<workout_file>\n" ++ ("\t<author>TrainerRoad</author>\n" ++
          ("\t<name>" ++ ("Unnamed Workout" ++ "</name>\n"))) from rfl,
        String.append_assoc, String.append_assoc, String.append_assoc,
        String.append_assoc]]
  · intro s h hs
    have hn : workoutName w = jsTrimEnd s := by
      simp [workoutName, h, hs]
    obtain ⟨h1, post, h2⟩ := hrest _ hn
    refine ⟨h1, ⟨post, ?_⟩⟩
    rw [h2]
    simp only [String.append_assoc]
    rw [show ("<workout_file>\n\t<author>TrainerRoad</author>\n\t<name>" : String) =
      "<workout_file>\n" ++ ("\t<author>TrainerRoad</author>\n" ++ "\t<name>")
        from rfl, String.append_assoc, String.append_assoc]

/-- Witness for C10 at `badDataWorkout`, whose name "W" is non-blank. -/
theorem c10_name_fallback_witness :
    (generateZwiftWorkout noHtml badDataWorkout strictOptions).filename =
      jsTrimEnd "W" ++ ".zwo" ∧
    ∃ post,
      (generateZwiftWorkout noHtml badDataWorkout strictOptions).content =
        "<workout_file>\n\t<author>TrainerRoad</author>\n\t<name>" ++
          jsTrimEnd "W" ++ "</name>\n" ++ post :=
  (c10_name_fallback noHtml badDataWorkout strictOptions).2 "W" rfl
    (by decide)
